import Mathlib

/-!
# A shallow embedding of the traceace log-analyzer core

This file embeds, in Lean 4, the parts of the `traceace` repository that the
verified claims are about:

* `pkg/models`   — the `LogLine` record (`timestamp` is modelled as
  `Option Int`, seconds-since-epoch; `none` plays the role of Go's zero
  `time.Time`, for which `IsZero()` is true);
* `pkg/parser`   — `ParseLogLine` and its helpers;
* `pkg/filter`   — the simple compiled-query engine (`SetFilter`, `Match`,
  `matchLine`, …) and the advanced expression engine (`ParseAdvancedQuery`,
  `QueryExpression`, `SetAdvancedFilter`, …);
* `pkg/ui`       — `CircularBuffer`, the simple batcher,
  `Model.addLogLine`, `Model.handleTailerEvent`, `Model.applySearch` and
  `Model.ProcessAllExistingLines`;
* `pkg/tailer`   — `FileWatcher.checkRotation` and the `LogLine` produced
  by `Tailer.monitorFile`.

Go standard-library primitives that the code calls (`regexp`,
`encoding/json`, `gopkg.in/yaml`, `time.Parse`/`Format`,
`strconv.ParseFloat`) are modelled by explicit executable Lean functions;
each such model carries a doc comment saying what it stands for and which
behaviours the theorems below rely on.  Everything written in the
repository itself is translated statement by statement.
-/

/-! ## Characters and strings (models of Go `strings`/`strconv` helpers) -/

/-- Model of Go's byte-wise character classes used by the repository.
`isWhitespace` is the tailer/filter helper `isWhitespace` (space, tab,
newline, carriage return). -/
def goIsWhitespace (c : Char) : Bool :=
  c = ' ' || c = '\t' || c = '\n' || c = '\r'

/-- `isAlphaNumeric` from `pkg/filter/advanced.go`. -/
def goIsAlphaNumeric (c : Char) : Bool :=
  ('a' ≤ c && c ≤ 'z') || ('A' ≤ c && c ≤ 'Z') || ('0' ≤ c && c ≤ '9') || c = '_'

/-- ASCII lower-casing of one character (model of the effect of
`strings.ToLower` on the ASCII inputs the claims use). -/
def asciiLowerChar (c : Char) : Char :=
  if 'A' ≤ c && c ≤ 'Z' then Char.ofNat (c.toNat + 32) else c

/-- ASCII upper-casing of one character (model of `strings.ToUpper`). -/
def asciiUpperChar (c : Char) : Char :=
  if 'a' ≤ c && c ≤ 'z' then Char.ofNat (c.toNat - 32) else c

/-- Model of `strings.ToLower` (ASCII). -/
def asciiLower (s : String) : String := String.mk (s.data.map asciiLowerChar)

/-- Model of `strings.ToUpper` (ASCII). -/
def asciiUpper (s : String) : String := String.mk (s.data.map asciiUpperChar)

/-- Model of `strings.EqualFold` (ASCII case-insensitive equality). -/
def equalFold (a b : String) : Bool := asciiLower a == asciiLower b

/-- Does `sub` occur at the head of `l`? (helper for substring search). -/
def listStartsWith (sub l : List Char) : Bool :=
  match sub, l with
  | [], _ => true
  | _ :: _, [] => false
  | c :: cs, d :: ds => c = d && listStartsWith cs ds

/-- First index at which `sub` occurs in `l`; model of `strings.Index`
(`none` plays the role of Go's `-1`). -/
def listIndexOf (l sub : List Char) : Option Nat :=
  match l with
  | [] => if sub.isEmpty then some 0 else none
  | _ :: rest =>
    if listStartsWith sub l then some 0
    else (listIndexOf rest sub).map (· + 1)

/-- Model of `strings.Index` on strings. -/
def goIndex (s sub : String) : Option Nat := listIndexOf s.data sub.data

/-- Model of `strings.Contains`. -/
def goContains (s sub : String) : Bool := (goIndex s sub).isSome

/-- Model of Go's built-in lexicographic byte-wise `<` on strings
(the claims only exercise it on ASCII data, where byte order and
code-point order agree). -/
def goStrLtChars : List Char → List Char → Bool
  | [], [] => false
  | [], _ :: _ => true
  | _ :: _, [] => false
  | a :: as, b :: bs => if a < b then true else if b < a then false else goStrLtChars as bs

/-- Go `a < b` on strings. -/
def goStrLt (a b : String) : Bool := goStrLtChars a.data b.data

/-- Go `a > b` on strings. -/
def goStrGt (a b : String) : Bool := goStrLt b a

/-- Model of `strings.TrimSpace` on a character list. -/
def trimChars (l : List Char) : List Char :=
  ((l.dropWhile goIsWhitespace).reverse.dropWhile goIsWhitespace).reverse

/-- Model of `strings.TrimSpace`. -/
def goTrim (s : String) : String := String.mk (trimChars s.data)

/-- Model of `strings.HasPrefix` (list-based so that the kernel can
evaluate it). -/
def strStartsWith (s pre : String) : Bool := listStartsWith pre.data s.data

/-- Model of `strings.HasSuffix`. -/
def strEndsWith (s suf : String) : Bool :=
  listStartsWith suf.data.reverse s.data.reverse

/-- Drop the first `n` characters (Go slice `s[n:]` on ASCII data). -/
def strDrop (s : String) (n : Nat) : String := String.mk (s.data.drop n)

/-- Drop the last `n` characters (Go slice `s[:len-n]` on ASCII data). -/
def strDropRight (s : String) (n : Nat) : String :=
  String.mk (s.data.take (s.data.length - n))

/-- The splitting loop of `strSplitOn` (leftmost, non-overlapping
occurrences of the separator `c :: cs`).  The `Nat` is fuel: the list
shrinks at every step, so fuel equal to the initial length always
suffices and the fuel-exhaustion branch is unreachable. -/
def listSplitOnGo (c : Char) (cs : List Char) : Nat → List Char → List Char → List (List Char)
  | _, [], acc => [acc.reverse]
  | 0, l, acc => [acc.reverse ++ l]
  | fuel + 1, d :: rest, acc =>
    if listStartsWith (c :: cs) (d :: rest) then
      acc.reverse :: listSplitOnGo c cs fuel (rest.drop cs.length) []
    else listSplitOnGo c cs fuel rest (d :: acc)

/-- Model of Go `strings.Split` / Lean `String.splitOn` for a non-empty
separator. -/
def strSplitOn (s sep : String) : List String :=
  match sep.data with
  | [] => [s]
  | c :: cs => (listSplitOnGo c cs s.data.length s.data []).map String.mk

/-- Decimal digit test. -/
def isDigitChar (c : Char) : Bool := '0' ≤ c && c ≤ '9'

/-- Digits to a natural number (most significant first). -/
def digitsToNat (l : List Char) : Nat :=
  l.foldl (fun acc c => acc * 10 + (c.toNat - '0'.toNat)) 0

/-- Model of `strconv.ParseFloat(s, 64)`, restricted to plain decimal
notation `[+-]digits[.digits]` with at least one digit (the only shapes the
claims exercise; Go additionally accepts exponents, hex floats and
Inf/NaN).  The result is an exact rational, which coincides with the
float64 value on the small integers the claims use. -/
def goParseFloat (s : String) : Option ℚ :=
  let l := s.data
  let (neg, l) :=
    match l with
    | '-' :: rest => (true, rest)
    | '+' :: rest => (false, rest)
    | _ => (false, l)
  let intPart := l.takeWhile isDigitChar
  let rest := l.dropWhile isDigitChar
  let core : Option ℚ :=
    match rest with
    | [] => if intPart.isEmpty then none else some (digitsToNat intPart : ℚ)
    | '.' :: frac =>
      if frac.all isDigitChar && !(intPart.isEmpty && frac.isEmpty) then
        some ((digitsToNat intPart : ℚ) +
          (digitsToNat frac : ℚ) / ((10 : ℚ) ^ frac.length))
      else none
    | _ => none
  core.map (fun q => if neg then -q else q)

/-- Left-pad a numeral with zeros to two digits (for `15:04:05` output). -/
def pad2 (n : Nat) : String :=
  if n < 10 then "0" ++ toString n else toString n

/-- Render an instant (seconds) as `HH:MM:SS`; model of Go
`t.Format("15:04:05")` for the instants the claims manipulate. -/
def formatHMS (t : Int) : String :=
  let sec := (t % 86400).toNat
  pad2 (sec / 3600) ++ ":" ++ pad2 ((sec % 3600) / 60) ++ ":" ++ pad2 (sec % 60)

/-- Simplified stand-in for Go `t.Format(time.RFC3339)` on the model's
instants.  No theorem below depends on the exact text, only on the
function being a fixed pure function of the instant. -/
def formatRFC3339 (t : Option Int) : String :=
  match t with
  | none => "0001-01-01T00:00:00Z"
  | some n => "unix:" ++ toString n ++ "Z"

/-! ## JSON/YAML values (model of Go `map[string]interface{}`) -/

/-- The dynamic values stored in a parsed JSON/YAML mapping.  Numbers are
restricted to integers: every number appearing in the claims is an integer
and `encoding/json` would represent it as an exactly-integral `float64`. -/
inductive JsonValue where
  | jstr (s : String)
  | jnum (n : Int)
  | jbool (b : Bool)
  | jobj (fields : List (String × JsonValue))
  | jnull
deriving Repr

/-- A parsed mapping: association list standing for Go's
`map[string]interface{}` (the claims never use duplicate keys). -/
abbrev ParsedMap := List (String × JsonValue)

/-- Go map lookup `parsed[field]`. -/
def pmLookup (m : ParsedMap) (k : String) : Option JsonValue :=
  match m with
  | [] => none
  | (k', v) :: rest => if k' = k then some v else pmLookup rest k

/-- Model of `fmt.Sprintf("%v", val)` for the dynamic values above
(strings print bare, integral floats print without a decimal point,
booleans as `true`/`false`). -/
def jsonRender : JsonValue → String
  | .jstr s => s
  | .jnum n => toString n
  | .jbool b => if b then "true" else "false"
  | .jobj fields => "map[" ++ String.intercalate " "
      (fields.map (fun p => p.1 ++ ":" ++ jsonRenderShallow p.2)) ++ "]"
  | .jnull => "<nil>"
where
  /-- one-level rendering used inside `map[...]` output -/
  jsonRenderShallow : JsonValue → String
  | .jstr s => s
  | .jnum n => toString n
  | .jbool b => if b then "true" else "false"
  | .jobj _ => "map[...]"
  | .jnull => "<nil>"

/-! ## LogLine (`pkg/models`) -/

/-- `models.LogLine`.  `timestamp = none` models Go's zero `time.Time`
(`Timestamp.IsZero()`); `parsed = none` models a nil `Parsed` map.  The
`Tokens` field only matters to the highlighter and is omitted. -/
structure LogLine where
  id : String := ""
  source : String := ""
  raw : String := ""
  timestamp : Option Int := none
  parsed : Option ParsedMap := none
  level : String := ""
  offset : Int := 0
  lineNum : Nat := 0
deriving Repr

/-- `models.TimeRange`. -/
structure GoTimeRange where
  start : Int
  stop : Int
deriving Repr

/-- `models.FilterOptions`. -/
structure FilterOptions where
  query : String := ""
  isRegex : Bool := false
  caseSensitive : Bool := false
  logLevels : List String := []
  sources : List String := []
  timeRange : Option GoTimeRange := none
deriving Repr

/-! ## The parser (`pkg/parser/parser.go`)

`LogParser` owns compiled regular expressions and calls
`encoding/json.Unmarshal`, `yaml.Unmarshal` and `time.Parse`.  Those
standard-library calls are the only non-translatable ingredients, so the
embedding is parametrised by a `ParserModel` bundling them; every theorem
about the parser is proved for *every* such model, and a concrete
reference model is provided further below for evaluating examples. -/

/-- The standard-library-dependent primitives of `parser.LogParser`:

* `jsonU`   — `json.Unmarshal` of a trimmed line into a string-keyed map
  (`none` = error);
* `yamlU`   — `yaml.Unmarshal`, likewise;
* `extractTsRaw` — `LogParser.extractTimestamp` (regex scan over the raw
  text followed by `parseTimestampString`); `none` models a zero
  `time.Time` result;
* `extractLvlRaw` — `LogParser.extractLevel` (regex scan followed by the
  canonical level mapping); `""` models "no level found";
* `pts`     — `LogParser.parseTimestampString`; `none` models the zero
  `time.Time` that the source returns (together with a nil error) when no
  format matches. -/
structure ParserModel where
  jsonU : String → Option ParsedMap
  yamlU : String → Option ParsedMap
  extractTsRaw : String → Option Int
  extractLvlRaw : String → String
  pts : String → Option Int

/-- `createLevelMapping` from `pkg/parser/parser.go`. -/
def levelMapping (s : String) : Option String :=
  if s = "TRACE" then some "TRACE"
  else if s = "DEBUG" then some "DEBUG"
  else if s = "INFO" then some "INFO"
  else if s = "WARN" then some "WARN"
  else if s = "WARNING" then some "WARN"
  else if s = "ERROR" then some "ERROR"
  else if s = "FATAL" then some "FATAL"
  else if s = "PANIC" then some "FATAL"
  else none

/-- `LogParser.parseTimestampValue`.  The result is doubly optional: the
outer layer is the source's boolean, the inner layer is the returned
`time.Time` (`none` = zero).  For strings the source's
`parseTimestampString` always reports a nil error, so the outer layer is
always `some` in that case. -/
def parseTimestampValue (pm : ParserModel) : JsonValue → Option (Option Int)
  | .jstr v => some (pm.pts v)
  | .jnum n => some (some n)
  | _ => none

/-- The ordered timestamp key list of `extractTimestampFromParsed`. -/
def timestampFields : List String :=
  ["timestamp", "time", "ts", "@timestamp", "datetime", "created_at", "logged_at"]

/-- The ordered level key list of `extractLevelFromParsed`. -/
def levelFields : List String :=
  ["level", "severity", "priority", "loglevel", "log_level"]

/-- `LogParser.extractTimestampFromParsed`: first timestamp key whose value
`parseTimestampValue` accepts. -/
def extractTimestampFromParsed (pm : ParserModel) (parsed : ParsedMap) :
    Option (Option Int) :=
  go timestampFields
where
  go : List String → Option (Option Int)
  | [] => none
  | f :: rest =>
    match pmLookup parsed f with
    | some v =>
      match parseTimestampValue pm v with
      | some t => some t
      | none => go rest
    | none => go rest

/-- `LogParser.extractLevelFromParsed`: first level key whose string value
upper-cases into the canonical table. -/
def extractLevelFromParsed (parsed : ParsedMap) : Option String :=
  go levelFields
where
  go : List String → Option String
  | [] => none
  | f :: rest =>
    match pmLookup parsed f with
    | some (.jstr s) =>
      match levelMapping (asciiUpper s) with
      | some lvl => some lvl
      | none => go rest
    | some _ => go rest
    | none => go rest

/-- Install the timestamp/level extracted from a freshly parsed mapping
(shared tail of `tryParseJSON` and `tryParseYAML`). -/
def applyParsedFields (pm : ParserModel) (parsed : ParsedMap) (line : LogLine) :
    LogLine :=
  let line := { line with parsed := some parsed }
  let line :=
    match extractTimestampFromParsed pm parsed with
    | some t => { line with timestamp := t }
    | none => line
  match extractLevelFromParsed parsed with
  | some lvl => { line with level := lvl }
  | none => line

/-- `LogParser.tryParseJSON`: `none` when the branch declines the line. -/
def tryParseJSON (pm : ParserModel) (line : LogLine) : Option LogLine :=
  let trimmed := goTrim line.raw
  if strStartsWith trimmed "\x7b" && strEndsWith trimmed "\x7d" then
    match pm.jsonU trimmed with
    | some parsed => some (applyParsedFields pm parsed line)
    | none => none
  else none

/-- The `looks like a timestamp-based log line` heuristic of
`tryParseYAML`. -/
def looksTimestamped (trimmed : String) : Bool :=
  goContains trimmed " INFO:" || goContains trimmed " DEBUG:" ||
  goContains trimmed " WARN:" || goContains trimmed " ERROR:" ||
  goContains trimmed " FATAL:"

/-- `LogParser.tryParseYAML`. -/
def tryParseYAML (pm : ParserModel) (line : LogLine) : Option LogLine :=
  let trimmed := goTrim line.raw
  if !goContains trimmed ":" then none
  else if looksTimestamped trimmed then none
  else
    match pm.yamlU trimmed with
    | some parsed =>
      if parsed.length < 2 then none
      else some (applyParsedFields pm parsed line)
    | none => none

/-- `LogParser.parseUnstructured`. -/
def parseUnstructured (pm : ParserModel) (line : LogLine) : LogLine :=
  let line :=
    if line.timestamp.isNone then
      match pm.extractTsRaw line.raw with
      | some t => { line with timestamp := some t }
      | none => line
    else line
  if line.level = "" then
    let lvl := pm.extractLvlRaw line.raw
    if lvl ≠ "" then { line with level := lvl } else line
  else line

/-- `LogParser.ParseLogLine` (the in-place mutation of the Go code is
rendered as a function from the old record to the new one). -/
def parseLogLine (pm : ParserModel) (line : LogLine) : LogLine :=
  if line.raw = "" then line
  else
    match tryParseJSON pm line with
    | some line' => line'
    | none =>
      match tryParseYAML pm line with
      | some line' => line'
      | none => parseUnstructured pm line

/-- `LogParser.GetParsedField`: dotted-path traversal of the parsed map. -/
def getParsedField (line : LogLine) (fieldPath : String) : Option JsonValue :=
  match line.parsed with
  | none => none
  | some m => go m (strSplitOn fieldPath ".")
where
  go (current : ParsedMap) : List String → Option JsonValue
  | [] => none
  | [part] => pmLookup current part
  | part :: rest =>
    match pmLookup current part with
    | some (.jobj nested) => go nested rest
    | _ => none

/-! ## A concrete reference `ParserModel`

The general theorems below hold for every `ParserModel`; the reference
model makes the examples of the claims computable.  Each piece is an
executable approximation of the standard-library call it stands for,
restricted to the input shapes the claims exercise, and each restriction
is stated in its doc comment. -/

/-- Read a JSON string literal (no escape sequences — none occur in the
claims); returns the contents and the remaining characters. -/
def jsonReadString : List Char → Option (String × List Char)
  | '"' :: rest => go rest []
  | _ => none
where
  go : List Char → List Char → Option (String × List Char)
  | [], _ => none
  | '\\' :: _, _ => none
  | '"' :: rest, acc => some (String.mk acc.reverse, rest)
  | c :: rest, acc => go rest (c :: acc)

/-- Read a JSON integer (optional minus sign). -/
def jsonReadInt (l : List Char) : Option (Int × List Char) :=
  match l with
  | '-' :: rest =>
    let ds := rest.takeWhile isDigitChar
    if ds.isEmpty then none else some (-(digitsToNat ds : Int), rest.dropWhile isDigitChar)
  | _ =>
    let ds := l.takeWhile isDigitChar
    if ds.isEmpty then none else some ((digitsToNat ds : Int), l.dropWhile isDigitChar)

/-- Read one JSON value (string, integer, `true`, `false`, `null`). -/
def jsonReadValue (l : List Char) : Option (JsonValue × List Char) :=
  match jsonReadString l with
  | some (s, rest) => some (.jstr s, rest)
  | none =>
    if listStartsWith "true".data l then some (.jbool true, l.drop 4)
    else if listStartsWith "false".data l then some (.jbool false, l.drop 5)
    else if listStartsWith "null".data l then some (.jnull, l.drop 4)
    else (jsonReadInt l).map (fun p => (.jnum p.1, p.2))

/-- Skip JSON whitespace. -/
def jsonSkipWs (l : List Char) : List Char := l.dropWhile goIsWhitespace

/-- Read the members of a flat JSON object after the opening brace. -/
def jsonReadMembers (fuel : Nat) (l : List Char) : Option ParsedMap :=
  match fuel with
  | 0 => none
  | fuel + 1 =>
    match jsonReadString (jsonSkipWs l) with
    | none => none
    | some (key, rest) =>
      match jsonSkipWs rest with
      | ':' :: rest =>
        match jsonReadValue (jsonSkipWs rest) with
        | none => none
        | some (v, rest) =>
          match jsonSkipWs rest with
          | ',' :: rest => (jsonReadMembers fuel rest).map (fun m => (key, v) :: m)
          | [']'] => none
          | ['}'] => some [(key, v)]
          | _ => none
      | _ => none

/-- Model of `encoding/json.Unmarshal` into `map[string]interface{}`,
restricted to flat objects whose values are strings without escapes,
integers, booleans or `null` — the only JSON shapes appearing in the
claims.  (Go's map is unordered with last-key-wins; the claims use no
duplicate keys, so an association list in source order is faithful.) -/
def jsonUnmarshalFlat (s : String) : Option ParsedMap :=
  match s.data with
  | '{' :: rest =>
    match jsonSkipWs rest with
    | ['}'] => some []
    | l => jsonReadMembers (l.length + 1) l
  | _ => none

/-- Model of `yaml.Unmarshal` on one-line input, restricted to flow
mappings `{k: v, ...}` with unquoted scalar keys; values are integers or
bare strings.  Block-style mappings with ≥ 2 entries cannot occur on a
single log line, and no claim exercises the YAML branch concretely. -/
def yamlUnmarshalFlow (s : String) : Option ParsedMap :=
  match s.data with
  | '{' :: rest =>
    match (trimChars rest).reverse with
    | '}' :: body => goEntries ((strSplitOn (String.mk body.reverse) ",").map goTrim)
    | _ => none
  | _ => none
where
  goEntry (e : String) : Option (String × JsonValue) :=
    match strSplitOn e ": " with
    | [k, v] =>
      if v.data.all isDigitChar && !v.isEmpty then some (goTrim k, .jnum (digitsToNat v.data))
      else some (goTrim k, .jstr (goTrim v))
    | _ => none
  goEntries : List String → Option ParsedMap
  | [] => some []
  | e :: rest =>
    match goEntry e, goEntries rest with
    | some kv, some m => some (kv :: m)
    | _, _ => none

/-- Days since the Unix epoch of a proleptic-Gregorian civil date
(the standard `civil_from_days` inverse). -/
def civilToDays (y : Int) (m d : Nat) : Int :=
  let y' : Int := if m ≤ 2 then y - 1 else y
  let era : Int := (if 0 ≤ y' then y' else y' - 399) / 400
  let yoe : Int := y' - era * 400
  let mp : Int := ((m : Int) + 9) % 12
  let doy : Int := (153 * mp + 2) / 5 + (d : Int) - 1
  let doe : Int := yoe * 365 + yoe / 4 - yoe / 100 + doy
  era * 146097 + doe - 719468

/-- Instant (seconds since epoch, the model's `time.Time`) of a civil
date-time. -/
def mkInstant (y : Int) (mo d h mi s : Nat) : Int :=
  civilToDays y mo d * 86400 + (h : Int) * 3600 + (mi : Int) * 60 + (s : Int)

/-- Two ASCII digits to a `Nat`, if present. -/
def twoDigits : List Char → Option (Nat × List Char)
  | a :: b :: rest =>
    if isDigitChar a && isDigitChar b then some (digitsToNat [a, b], rest) else none
  | _ => none

/-- Four ASCII digits to a `Nat`, if present. -/
def fourDigits : List Char → Option (Nat × List Char)
  | a :: b :: c :: d :: rest =>
    if isDigitChar a && isDigitChar b && isDigitChar c && isDigitChar d then
      some (digitsToNat [a, b, c, d], rest)
    else none
  | _ => none

/-- Try to read `YYYY-MM-DD(T| )HH:MM:SS` at the head of `l`; used both by
the reference `parseTimestampString` model and by the ISO-8601 scan. -/
def readIsoHead (l : List Char) : Option (Int × List Char) :=
  match fourDigits l with
  | none => none
  | some (y, rest) =>
    match rest with
    | '-' :: rest =>
      match twoDigits rest with
      | none => none
      | some (mo, rest) =>
        match rest with
        | '-' :: rest =>
          match twoDigits rest with
          | none => none
          | some (d, rest) =>
            match rest with
            | sep :: rest =>
              if sep = 'T' || sep = ' ' then
                match twoDigits rest with
                | none => none
                | some (h, rest) =>
                  match rest with
                  | ':' :: rest =>
                    match twoDigits rest with
                    | none => none
                    | some (mi, rest) =>
                      match rest with
                      | ':' :: rest =>
                        match twoDigits rest with
                        | none => none
                        | some (s, rest) =>
                          some (mkInstant (y : Int) mo d h mi s, rest)
                      | _ => none
                  | _ => none
              else none
            | _ => none
        | _ => none
    | _ => none

/-- Reference model of `LogParser.parseTimestampString`: accepts
`YYYY-MM-DD HH:MM:SS`, `YYYY-MM-DDTHH:MM:SS` and the same with a trailing
`Z` (RFC3339 in UTC); `none` models the zero `time.Time` the source
returns for every other input.  The source's further formats (Apache,
syslog, Unix date) are not exercised by any claim. -/
def refPts (s : String) : Option Int :=
  match readIsoHead s.data with
  | some (t, []) => some t
  | some (t, ['Z']) => some t
  | _ => none

/-- Reference model of `LogParser.extractTimestamp`: leftmost occurrence
of the ISO-8601 pattern (the first pattern of
`compileTimestampPatterns`); the later patterns are not exercised by any
claim.  `none` models a zero `time.Time` result. -/
def refExtractTsRaw (s : String) : Option Int :=
  go s.data
where
  go : List Char → Option Int
  | [] => none
  | l@(_ :: rest) =>
    match readIsoHead l with
    | some (t, _) => some t
    | none => go rest

/-- The level-word alternation of `compileLevelPatterns`, in source
order. -/
def levelWords : List String :=
  ["TRACE", "DEBUG", "INFO", "WARN", "WARNING", "ERROR", "FATAL", "PANIC"]

/-- Word-character test for the `\b` boundaries of the level regex. -/
def isWordChar (c : Char) : Bool :=
  ('a' ≤ c && c ≤ 'z') || ('A' ≤ c && c ≤ 'Z') || ('0' ≤ c && c ≤ '9') || c = '_'

/-- Does `w` (upper case) match case-insensitively at the head of `l`,
with a word boundary after it? -/
def levelWordAt (w : String) (l : List Char) : Bool :=
  listStartsWith w.data (l.map asciiUpperChar) &&
    match l.drop w.length with
    | [] => true
    | c :: _ => !isWordChar c

/-- Reference model of `LogParser.extractLevel`: leftmost
case-insensitive whole-word occurrence of a level word, fed through the
canonical mapping.  (The source's second and third patterns return full
matches containing brackets or quotes, which never survive the mapping,
so the first pattern is the only one that can produce a level.) -/
def refExtractLvlRaw (s : String) : String :=
  go true s.data
where
  go : Bool → List Char → String
  | _, [] => ""
  | atBoundary, l@(c :: rest) =>
    if atBoundary then
      match levelWords.find? (fun w => levelWordAt w l) with
      | some w => ((levelMapping (asciiUpper w)).getD "")
      | none => go (!isWordChar c) rest
    else go (!isWordChar c) rest

/-- The concrete reference `ParserModel`. -/
def refParserModel : ParserModel where
  jsonU := jsonUnmarshalFlat
  yamlU := yamlUnmarshalFlow
  extractTsRaw := refExtractTsRaw
  extractLvlRaw := refExtractLvlRaw
  pts := refPts

/-! ## Regular expressions (model of Go `regexp`)

The claims treat compiled patterns opaquely: no proved statement depends
on which strings a compiled pattern accepts, only on *whether a pattern
compiles* (for the error-preservation claim) and on compiled patterns
being carried around unchanged.  The model therefore records the pattern
text; compilation fails exactly on unbalanced parentheses — a faithful
subset of Go's `regexp.Compile` failures (`"("` really is rejected by
RE2), which is all the witnesses need. -/

structure GoRegex where
  pattern : String
deriving Repr

/-- Are the parentheses of `l` balanced? -/
def parensBalanced (l : List Char) : Bool :=
  go l 0
where
  go : List Char → Nat → Bool
  | [], depth => depth = 0
  | '(' :: rest, depth => go rest (depth + 1)
  | ')' :: rest, depth => if depth = 0 then false else go rest (depth - 1)
  | _ :: rest, depth => go rest depth

/-- Model of `regexp.Compile`. -/
def regexpCompile (pat : String) : Except String GoRegex :=
  if parensBalanced pat.data then .ok ⟨pat⟩
  else .error ("error parsing regexp: missing closing ): `" ++ pat ++ "`")

/-- Stand-in for `(*regexp.Regexp).MatchString`: case-insensitive
substring search when the pattern carries the `(?i)` flag, plain
substring search otherwise.  No theorem below depends on this choice. -/
def GoRegex.matchString (re : GoRegex) (s : String) : Bool :=
  if strStartsWith re.pattern "(?i)" then
    goContains (asciiLower s) (asciiLower (strDrop re.pattern 4))
  else
    goContains s re.pattern

/-! ## The advanced expression engine (`pkg/filter/advanced.go`) -/

/-- The `QueryExpression` tree: `AndExpression`, `OrExpression`,
`NotExpression`, `FieldExpression`, `TextExpression`,
`TimeRangeExpression`. -/
inductive QueryExpression where
  | qand (l r : QueryExpression)
  | qor (l r : QueryExpression)
  | qnot (e : QueryExpression)
  | qfield (field op value : String) (pattern : Option GoRegex)
  | qtext (text : String) (caseSensitive isRegex : Bool) (pattern : Option GoRegex)
  | qtime (start stop : Int)
deriving Repr

instance : Inhabited QueryExpression := ⟨.qtext "" false false none⟩

/-- `FilterEngine.extractFieldValue`. -/
def extractFieldValue (line : LogLine) (field : String) : String :=
  let f := asciiLower field
  if f = "level" || f = "severity" || f = "lvl" then line.level
  else if f = "source" || f = "file" || f = "src" then line.source
  else if f = "message" || f = "msg" || f = "text" || f = "raw" then line.raw
  else if f = "timestamp" || f = "time" || f = "ts" then
    match line.timestamp with
    | some t => formatRFC3339 (some t)
    | none => ""
  else if f = "id" then line.id
  else if f = "line" || f = "linenum" then toString line.lineNum
  else if f = "offset" then toString line.offset
  else
    match line.parsed with
    | some _ =>
      match getParsedField line field with
      | some .jnull => ""   -- a JSON null is a nil interface value in Go
      | some v => jsonRender v
      | none => ""
    | none => ""

/-- The string-comparison fallback inside `FilterEngine.matchComparison`
(Go's `>`/`<`/`>=`/`<=` on strings). -/
def matchComparisonStr (fieldValue queryValue operator : String) : Bool :=
  if operator = ":>" then goStrGt fieldValue queryValue
  else if operator = ":<" then goStrLt fieldValue queryValue
  else if operator = ":>=" then !goStrLt fieldValue queryValue
  else if operator = ":<=" then !goStrGt fieldValue queryValue
  else false

/-- `FilterEngine.matchComparison`: numeric comparison when both sides
parse as floats, otherwise the string fallback. -/
def matchComparison (fieldValue queryValue operator : String) : Bool :=
  match goParseFloat fieldValue, goParseFloat queryValue with
  | some fieldNum, some queryNum =>
    if operator = ":>" then decide (queryNum < fieldNum)
    else if operator = ":<" then decide (fieldNum < queryNum)
    else if operator = ":>=" then decide (queryNum ≤ fieldNum)
    else if operator = ":<=" then decide (fieldNum ≤ queryNum)
    else matchComparisonStr fieldValue queryValue operator
  | _, _ => matchComparisonStr fieldValue queryValue operator

/-- `FilterEngine.matchFieldExpression`. -/
def matchFieldExpression (fieldValue : String) (op value : String)
    (pattern : Option GoRegex) : Bool :=
  if op = ":" then equalFold fieldValue value
  else if op = ":!=" then !equalFold fieldValue value
  else if op = ":~" then
    match pattern with
    | some p => p.matchString fieldValue
    | none => false
  else if op = ":>" || op = ":<" || op = ":>=" || op = ":<=" then
    matchComparison fieldValue value op
  else equalFold fieldValue value

/-- `QueryExpression.Evaluate` (all six `Evaluate` methods).  Go's `&&`
and `||` short-circuit exactly as Lean's `Bool` operators do. -/
def QueryExpression.evaluate (line : LogLine) : QueryExpression → Bool
  | .qand l r => l.evaluate line && r.evaluate line
  | .qor l r => l.evaluate line || r.evaluate line
  | .qnot e => !e.evaluate line
  | .qfield field op value pattern =>
    matchFieldExpression (extractFieldValue line field) op value pattern
  | .qtext text caseSensitive isRegex pattern =>
    if isRegex && pattern.isSome then
      match pattern with
      | some p => p.matchString line.raw
      | none => false
    else if !caseSensitive then
      goContains (asciiLower line.raw) (asciiLower text)
    else goContains line.raw text
  | .qtime start stop =>
    match line.timestamp with
    | none => false
    | some t => decide (start ≤ t) && decide (t ≤ stop)

/-- The `String()` methods of the six expression kinds. -/
def QueryExpression.render : QueryExpression → String
  | .qand l r => "(" ++ l.render ++ " AND " ++ r.render ++ ")"
  | .qor l r => "(" ++ l.render ++ " OR " ++ r.render ++ ")"
  | .qnot e => "NOT " ++ e.render
  | .qfield field op value _ => field ++ op ++ value
  | .qtext text _ isRegex _ =>
    if isRegex then "~\"" ++ text ++ "\"" else "\"" ++ text ++ "\""
  | .qtime start stop => "time:[" ++ formatHMS start ++ " TO " ++ formatHMS stop ++ "]"

/-! ### The advanced query scanner (`AdvancedQueryParser`)

The Go scanner walks an index through the input and only ever moves
forward, so it is embedded on the list of not-yet-consumed characters;
each function returns its result together with the remaining characters.
The mutual recursion is bounded by explicit fuel; `parseAdvancedQuery`
supplies more fuel than any input of its length can consume, so the
"out of fuel" branch is unreachable in practice (and every error, of
whatever message, takes the same state-preserving return path as in the
source). -/

/-- `AdvancedQueryParser.skipWhitespace` (space and tab only). -/
def skipWs : List Char → List Char
  | [] => []
  | c :: rest => if c = ' ' || c = '\t' then skipWs rest else c :: rest

/-- `AdvancedQueryParser.matchKeyword`: on success the keyword is
consumed; on failure only the leading whitespace is (as in the source,
whose `p.pos` retains the skip). -/
def matchKeyword (l : List Char) (keyword : String) : Bool × List Char :=
  let l := skipWs l
  if l.length < keyword.length then (false, l)
  else if String.mk ((l.take keyword.length).map asciiUpperChar) = keyword then
    match l.drop keyword.length with
    | [] => (true, [])
    | c :: rest => if goIsAlphaNumeric c then (false, l) else (true, c :: rest)
  else (false, l)

/-- The bracket-depth scan of `parseToken` for `time:[...]` tokens.
The depth is an `Int`, as in the source, where a stray `]` drives it
negative. -/
def bracketScan : List Char → Int → List Char × List Char
  | [], _ => ([], [])
  | c :: rest, depth =>
    if c = '[' then
      let (consumed, r) := bracketScan rest (depth + 1)
      (c :: consumed, r)
    else if c = ']' then
      if depth - 1 = 0 then ([c], rest)
      else
        let (consumed, r) := bracketScan rest (depth - 1)
        (c :: consumed, r)
    else
      let (consumed, r) := bracketScan rest depth
      (c :: consumed, r)

/-- `AdvancedQueryParser.parseToken`. -/
def parseToken (l : List Char) : String × List Char :=
  let l := skipWs l
  match l with
  | [] => ("", [])
  | '"' :: rest =>
    let inner := rest.takeWhile (· ≠ '"')
    match rest.dropWhile (· ≠ '"') with
    | '"' :: rest' => (String.mk ('"' :: (inner ++ ['"'])), rest')
    | _ => (String.mk ('"' :: inner), [])
  | _ =>
    if listStartsWith "time:[".data l then
      let (consumed, rest) := bracketScan l 0
      (String.mk consumed, rest)
    else
      let tok := l.takeWhile (fun c => !goIsWhitespace c && c ≠ '(' && c ≠ ')')
      (String.mk tok, l.dropWhile (fun c => !goIsWhitespace c && c ≠ '(' && c ≠ ')'))

/-- `AdvancedQueryParser.lookaheadForExpression` (position restored, so it
is a pure predicate on the remaining input). -/
def lookaheadForExpression (l : List Char) : Bool :=
  let token := (parseToken l).1
  token ≠ "" && (goContains token ":" || strStartsWith token "time:[" ||
    strStartsWith token "~" || strStartsWith token "\"")

/-- The ordered operator list of `parseFieldExpression`; `:>` is searched
*before* `:>=`, so a token written with `:>=` is split at `:>` with the
`=` left on the value. -/
def fieldOperators : List String := [":!=", ":~", ":>", ":<", ":>=", ":<=", ":"]

/-- The operator-search loop of `parseFieldExpression`:
first operator of the list that occurs in the token, split there. -/
def findOperator (token : String) : Option (String × String × String) :=
  go fieldOperators
where
  go : List String → Option (String × String × String)
  | [] => none
  | op :: rest =>
    match goIndex token op with
    | some idx =>
      some (String.mk (token.data.take idx), op,
        String.mk (token.data.drop (idx + op.length)))
    | none => go rest

/-- `AdvancedQueryParser.parseFieldExpression`. -/
def parseFieldExpression (token : String) : Except String QueryExpression :=
  match findOperator token with
  | none => .error ("invalid field expression: " ++ token)
  | some (field, op, value) =>
    if field = "" then .error ("invalid field expression: " ++ token)
    else if op = ":~" || (goContains value "|" && goContains value "(") then
      match regexpCompile value with
      | .ok p => .ok (.qfield field op value (some p))
      | .error e => .error ("invalid regex in field expression: " ++ e)
    else .ok (.qfield field op value none)

/-- Read `HH:MM:SS` exactly. -/
def readHMSAll (l : List Char) : Option Int :=
  match twoDigits l with
  | some (h, ':' :: rest) =>
    match twoDigits rest with
    | some (mi, ':' :: rest) =>
      match twoDigits rest with
      | some (s, []) => some ((h : Int) * 3600 + (mi : Int) * 60 + (s : Int))
      | _ => none
    | _ => none
  | _ => none

/-- `AdvancedQueryParser.parseTimeValue`, against the model's instants:
a bare `HH:MM:SS` is placed on `now`'s day (the source uses the local
date of `time.Now()`), and the date-carrying formats are those of
`readIsoHead` with an optional `Z`.  Failure mirrors the source's
"unable to parse time" error. -/
def parseTimeValue (now : Int) (timeStr : String) : Except String Int :=
  match readHMSAll timeStr.data with
  | some secs => .ok ((now / 86400) * 86400 + secs)
  | none =>
    match readIsoHead timeStr.data with
    | some (t, []) => .ok t
    | some (t, ['Z']) => .ok t
    | _ => .error ("unable to parse time: " ++ timeStr)

/-- `AdvancedQueryParser.parseTimeRangeExpression`. -/
def parseTimeRangeExpression (now : Int) (token : String) :
    Except String QueryExpression :=
  if strStartsWith token "time:[" && strEndsWith token "]" then
    let timeSpec := String.mk ((token.data.drop 6).dropLast)
    match strSplitOn timeSpec " TO " with
    | [p1, p2] =>
      match parseTimeValue now (goTrim p1) with
      | .error e => .error ("invalid start time: " ++ e)
      | .ok start =>
        match parseTimeValue now (goTrim p2) with
        | .error e => .error ("invalid end time: " ++ e)
        | .ok stop => .ok (.qtime start stop)
    | _ => .error "time range must have format: time:[start TO end]"
  else .error ("invalid time range format: " ++ token)

/-- `AdvancedQueryParser.parseTextExpression`.  (When the token is a
single `"` the Go slice `text[1:len-1]` would panic; `drop`/`dropRight`
return `""` instead — no claim reaches that input.) -/
def parseTextExpression (token : String) : Except String QueryExpression :=
  if strStartsWith token "~" then
    let text := strDrop token 1
    match regexpCompile ("(?i)" ++ text) with
    | .error e => .error ("invalid regex: " ++ e)
    | .ok p =>
      if strStartsWith text "\"" && strEndsWith text "\"" then
        .ok (.qtext (strDropRight (strDrop text 1) 1) true true (some p))
      else .ok (.qtext text false true (some p))
  else if strStartsWith token "\"" && strEndsWith token "\"" then
    .ok (.qtext (strDropRight (strDrop token 1) 1) true false none)
  else .ok (.qtext token false false none)

mutual

/-- `AdvancedQueryParser.parseExpression` (OR level). -/
def parseExpression (now : Int) : Nat → List Char → Except String (QueryExpression × List Char)
  | 0, _ => .error "query too complex"
  | fuel + 1, l =>
    match parseAndExpression now fuel l with
    | .error e => .error e
    | .ok (left, l) => orLoop now fuel left l

/-- The `for`-loop of `parseExpression`. -/
def orLoop (now : Int) : Nat → QueryExpression → List Char → Except String (QueryExpression × List Char)
  | _, left, [] => .ok (left, [])
  | 0, _, _ => .error "query too complex"
  | fuel + 1, left, l =>
    let l1 := skipWs l
    match matchKeyword l1 "OR" with
    | (true, l2) =>
      match parseAndExpression now fuel l2 with
      | .error e => .error e
      | .ok (right, l3) => orLoop now fuel (.qor left right) l3
    | (false, l2) => .ok (left, l2)

/-- `AdvancedQueryParser.parseAndExpression`. -/
def parseAndExpression (now : Int) : Nat → List Char → Except String (QueryExpression × List Char)
  | 0, _ => .error "query too complex"
  | fuel + 1, l =>
    match parseUnaryExpression now fuel l with
    | .error e => .error e
    | .ok (left, l) => andLoop now fuel left l

/-- The `for`-loop of `parseAndExpression`, with its explicit-`AND` and
implicit-`AND` (lookahead) cases. -/
def andLoop (now : Int) : Nat → QueryExpression → List Char → Except String (QueryExpression × List Char)
  | _, left, [] => .ok (left, [])
  | 0, _, _ => .error "query too complex"
  | fuel + 1, left, l =>
    let l1 := skipWs l
    match matchKeyword l1 "AND" with
    | (true, l2) =>
      match parseUnaryExpression now fuel l2 with
      | .error e => .error e
      | .ok (right, l3) => andLoop now fuel (.qand left right) l3
    | (false, l2) =>
      if lookaheadForExpression l2 then
        match parseUnaryExpression now fuel l2 with
        | .error e => .error e
        | .ok (right, l3) => andLoop now fuel (.qand left right) l3
      else .ok (left, l2)

/-- `AdvancedQueryParser.parseUnaryExpression`. -/
def parseUnaryExpression (now : Int) : Nat → List Char → Except String (QueryExpression × List Char)
  | 0, _ => .error "query too complex"
  | fuel + 1, l =>
    match matchKeyword (skipWs l) "NOT" with
    | (true, l1) =>
      match parseUnaryExpression now fuel l1 with
      | .error e => .error e
      | .ok (e, l2) => .ok (.qnot e, l2)
    | (false, l1) => parsePrimaryExpression now fuel l1

/-- `AdvancedQueryParser.parsePrimaryExpression`. -/
def parsePrimaryExpression (now : Int) : Nat → List Char → Except String (QueryExpression × List Char)
  | 0, _ => .error "query too complex"
  | fuel + 1, l =>
    match skipWs l with
    | [] => .error "unexpected end of query"
    | '(' :: rest =>
      match parseExpression now fuel rest with
      | .error e => .error e
      | .ok (e, l2) =>
        match skipWs l2 with
        | ')' :: l3 => .ok (e, l3)
        | _ => .error "missing closing parenthesis"
    | l' =>
      let (token, rest) := parseToken l'
      if token = "" then .error "empty expression"
      else if goContains token ":" then
        match parseFieldExpression token with
        | .error e => .error e
        | .ok e => .ok (e, rest)
      else if strStartsWith token "time:[" then
        match parseTimeRangeExpression now token with
        | .error e => .error e
        | .ok e => .ok (e, rest)
      else
        match parseTextExpression token with
        | .error e => .error e
        | .ok e => .ok (e, rest)

end

/-- `FilterEngine.ParseAdvancedQuery`.  The fuel bound is generous enough
that the "query too complex" branch is never taken on inputs whose
parse terminates in the source. -/
def parseAdvancedQuery (now : Int) (query : String) : Except String QueryExpression :=
  let input := (goTrim query).data
  (parseExpression now (8 * input.length + 16) input).map Prod.fst

/-! ## The simple compiled-query engine (`pkg/filter/filter.go`) -/

/-- `filter.QueryOperator`. -/
inductive QueryOperator where
  | opEquals | opNotEquals | opContains | opRegex
  | opGreater | opLess | opGreaterEqual | opLessEqual
deriving DecidableEq, Repr

/-- `filter.FieldQuery`. -/
structure FieldQuery where
  field : String
  operator : QueryOperator
  value : String
  pattern : Option GoRegex := none
deriving Repr

/-- `filter.CompiledQuery`.  The Go `map[string]bool` sets of levels and
sources are modelled by lists of their `true` keys (the code only ever
stores `true` and only tests membership); the never-read `BooleanOp`
field is omitted. -/
structure CompiledQuery where
  isRegex : Bool := false
  caseSensitive : Bool := false
  pattern : Option GoRegex := none
  keywordQuery : String := ""
  fieldQueries : List FieldQuery := []
  timeRange : Option GoTimeRange := none
  logLevels : List String := []
  sources : List String := []
deriving Repr

/-- `filter.FilterEngine` (its `parser` pointer is omitted: the only use,
`GetParsedField`, is the concrete function above). -/
structure FilterEngine where
  compiledQuery : Option CompiledQuery := none
  advancedExpression : Option QueryExpression := none
  lastOptions : FilterOptions := {}

/-- `FilterEngine.splitQuery` (split on top-level spaces, respecting
parentheses and quotes; parts are trimmed on flush). -/
def splitQueryAux : List Char → List Char → Int → Bool → List String
  | [], current, _, _ =>
    if current.isEmpty then [] else [goTrim (String.mk current.reverse)]
  | c :: rest, current, inParens, inQuotes =>
    if c = '"' then splitQueryAux rest (c :: current) inParens (!inQuotes)
    else if c = '(' then
      splitQueryAux rest (c :: current) (if inQuotes then inParens else inParens + 1) inQuotes
    else if c = ')' then
      splitQueryAux rest (c :: current) (if inQuotes then inParens else inParens - 1) inQuotes
    else if c = ' ' then
      if !inQuotes && inParens = 0 then
        if current.isEmpty then splitQueryAux rest [] inParens inQuotes
        else goTrim (String.mk current.reverse) :: splitQueryAux rest [] inParens inQuotes
      else splitQueryAux rest (c :: current) inParens inQuotes
    else splitQueryAux rest (c :: current) inParens inQuotes

/-- `FilterEngine.splitQuery`. -/
def splitQuery (queryStr : String) : List String :=
  splitQueryAux queryStr.data [] 0 false

/-- `FilterEngine.parseFieldQuery` (the booleans are the `IsRegex` and
`CaseSensitive` fields of the compiled query being built). -/
def parseFieldQuery (queryPart : String) (qIsRegex qCaseSensitive : Bool) :
    Except String FieldQuery :=
  match goIndex queryPart ":" with
  | none => .error ("invalid field query: " ++ queryPart)
  | some colonIndex =>
    let field := goTrim (String.mk (queryPart.data.take colonIndex))
    let value := goTrim (String.mk (queryPart.data.drop (colonIndex + 1)))
    let (op, v) :=
      if strStartsWith value "!" then (QueryOperator.opNotEquals, strDrop value 1)
      else if strStartsWith value "~" then (QueryOperator.opRegex, strDrop value 1)
      else if strStartsWith value ">" then (QueryOperator.opGreater, strDrop value 1)
      else if strStartsWith value "<" then (QueryOperator.opLess, strDrop value 1)
      else if goContains value "*" || goContains value "?" then
        (QueryOperator.opContains, value)
      else (QueryOperator.opEquals, value)
    if op = QueryOperator.opRegex || (qIsRegex && goContains value "|") then
      let flags := if !qCaseSensitive then "(?i)" else ""
      match regexpCompile (flags ++ v) with
      | .ok p => .ok ⟨field, op, v, some p⟩
      | .error e => .error ("invalid regex in field query: " ++ e)
    else .ok ⟨field, op, v, none⟩

/-- `FilterEngine.parseFieldQueries`: walk the split parts, the first
non-field part becoming the keyword query and every field part being
appended in order. -/
def parseFieldQueriesGo : List String → CompiledQuery → Except String CompiledQuery
  | [], q => .ok q
  | part :: rest, q =>
    if !goContains part ":" then
      let q :=
        if q.keywordQuery = "" then
          { q with keywordQuery := if !q.caseSensitive then asciiLower part else part }
        else q
      parseFieldQueriesGo rest q
    else
      match parseFieldQuery part q.isRegex q.caseSensitive with
      | .error e => .error e
      | .ok fq => parseFieldQueriesGo rest { q with fieldQueries := q.fieldQueries ++ [fq] }

/-- `FilterEngine.parseFieldQueries`. -/
def parseFieldQueries (queryStr : String) (q : CompiledQuery) :
    Except String CompiledQuery :=
  parseFieldQueriesGo (splitQuery queryStr) q

/-- `FilterEngine.parseMainQuery`. -/
def parseMainQuery (queryStr : String) (query : CompiledQuery) :
    Except String CompiledQuery :=
  if goContains queryStr ":" then parseFieldQueries queryStr query
  else if query.isRegex then
    let flags := if !query.caseSensitive then "(?i)" else ""
    match regexpCompile (flags ++ queryStr) with
    | .ok p => .ok { query with pattern := some p }
    | .error e => .error ("invalid regex pattern: " ++ e)
  else
    .ok { query with
      keywordQuery := if !query.caseSensitive then asciiLower queryStr else queryStr }

/-- `FilterEngine.compileQuery`. -/
def compileQuery (options : FilterOptions) : Except String CompiledQuery :=
  let query : CompiledQuery :=
    { isRegex := options.isRegex
      caseSensitive := options.caseSensitive
      timeRange := options.timeRange
      logLevels := options.logLevels.map asciiUpper
      sources := options.sources }
  if options.query ≠ "" then parseMainQuery options.query query else .ok query

/-- `FilterEngine.SetFilter`: note that `lastOptions` is overwritten
*before* compilation is attempted, while `compiledQuery` is only replaced
on success. -/
def FilterEngine.setFilter (f : FilterEngine) (options : FilterOptions) :
    FilterEngine × Option String :=
  let f := { f with lastOptions := options }
  match compileQuery options with
  | .error e => (f, some ("failed to compile query: " ++ e))
  | .ok q => ({ f with compiledQuery := some q }, none)

/-- `FilterEngine.matchFieldQuery`'s field extraction followed by
`matchFieldValue`. -/
def matchStringComparison (fieldValue : String) (fq : FieldQuery) : Bool :=
  match fq.operator with
  | .opGreater => goStrGt fieldValue fq.value
  | .opLess => goStrLt fieldValue fq.value
  | .opGreaterEqual => !goStrLt fieldValue fq.value
  | .opLessEqual => !goStrGt fieldValue fq.value
  | _ => false

/-- `FilterEngine.matchNumericComparison`. -/
def matchNumericComparison (fieldValue : String) (fq : FieldQuery) : Bool :=
  match goParseFloat fieldValue, goParseFloat fq.value with
  | some fieldNum, some queryNum =>
    match fq.operator with
    | .opGreater => decide (queryNum < fieldNum)
    | .opLess => decide (fieldNum < queryNum)
    | .opGreaterEqual => decide (queryNum ≤ fieldNum)
    | .opLessEqual => decide (fieldNum ≤ queryNum)
    | _ => false
  | _, _ => matchStringComparison fieldValue fq

/-- `FilterEngine.matchFieldValue`. -/
def matchFieldValue (fieldValue : String) (fq : FieldQuery) : Bool :=
  match fq.operator with
  | .opEquals => equalFold fieldValue fq.value
  | .opNotEquals => !equalFold fieldValue fq.value
  | .opContains => goContains (asciiLower fieldValue) (asciiLower fq.value)
  | .opRegex =>
    match fq.pattern with
    | some p => p.matchString fieldValue
    | none => false
  | _ => matchNumericComparison fieldValue fq

/-- `FilterEngine.matchFieldQuery` (the `timestamp` case formats even the
zero time, unlike the advanced engine's `extractFieldValue`). -/
def matchFieldQuery (line : LogLine) (fq : FieldQuery) : Bool :=
  let f := asciiLower fq.field
  let fieldValue :=
    if f = "level" || f = "severity" then line.level
    else if f = "source" || f = "file" then line.source
    else if f = "message" || f = "msg" || f = "text" then line.raw
    else if f = "timestamp" || f = "time" || f = "ts" then formatRFC3339 line.timestamp
    else
      match line.parsed with
      | some _ =>
        match getParsedField line fq.field with
        | some .jnull => ""
        | some v => jsonRender v
        | none => ""
      | none => ""
  matchFieldValue fieldValue fq

/-- `FilterEngine.matchFieldQueries` (AND over all field queries). -/
def matchFieldQueries (line : LogLine) (fqs : List FieldQuery) : Bool :=
  fqs.all (fun fq => matchFieldQuery line fq)

/-- `FilterEngine.matchLine`.  A record whose timestamp is the zero time
*skips* the time-range check rather than failing it. -/
def matchLine (line : LogLine) (query : CompiledQuery) : Bool :=
  let timeReject :=
    match query.timeRange with
    | some tr =>
      match line.timestamp with
      | some t => decide (t < tr.start) || decide (tr.stop < t)
      | none => false
    | none => false
  if timeReject then false
  else if !query.logLevels.isEmpty &&
      (line.level = "" || !query.logLevels.contains (asciiUpper line.level)) then false
  else if !query.sources.isEmpty && !query.sources.contains line.source then false
  else
    let mainQueryMatch :=
      if query.keywordQuery ≠ "" then
        let searchText := if !query.caseSensitive then asciiLower line.raw else line.raw
        goContains searchText query.keywordQuery
      else
        match query.pattern with
        | some p => p.matchString line.raw
        | none => true
    let fieldQueriesMatch :=
      if query.fieldQueries.isEmpty then true
      else matchFieldQueries line query.fieldQueries
    mainQueryMatch && fieldQueriesMatch

/-- `FilterEngine.Match`: the advanced expression, when present, takes
precedence over the compiled flat query; with neither, nothing matches. -/
def FilterEngine.feMatch (f : FilterEngine) (line : LogLine) : Bool :=
  match f.advancedExpression with
  | some e => e.evaluate line
  | none =>
    match f.compiledQuery with
    | none => false
    | some q => matchLine line q

/-- `FilterEngine.Clear`. -/
def FilterEngine.clear (_f : FilterEngine) : FilterEngine :=
  { compiledQuery := none, advancedExpression := none, lastOptions := {} }

/-- `FilterEngine.HasFilter`. -/
def FilterEngine.hasFilter (f : FilterEngine) : Bool :=
  f.advancedExpression.isSome ||
    (match f.compiledQuery with
     | none => false
     | some q =>
       q.keywordQuery ≠ "" || q.pattern.isSome || !q.fieldQueries.isEmpty ||
         !q.logLevels.isEmpty || !q.sources.isEmpty || q.timeRange.isSome)

/-- `FilterEngine.SetAdvancedFilter` (`pkg/filter/advanced.go`): an empty
query clears the engine; a parse failure leaves it untouched; success
installs the expression together with a fresh `CompiledQuery` carrying
the raw query string for the summary. -/
def FilterEngine.setAdvancedFilter (f : FilterEngine) (now : Int) (query : String) :
    FilterEngine × Option String :=
  if query = "" then (f.clear, none)
  else
    match parseAdvancedQuery now query with
    | .error e => (f, some ("failed to parse advanced query: " ++ e))
    | .ok expr =>
      ({ f with compiledQuery := some { keywordQuery := query }
                advancedExpression := some expr }, none)

/-- `FilterEngine.ValidateQuery`. -/
def validateQuery (queryStr : String) (isRegex : Bool) : Option String :=
  if queryStr = "" then none
  else
    let regexErr :=
      if isRegex then
        match regexpCompile queryStr with
        | .error e => some ("invalid regex: " ++ e)
        | .ok _ => none
      else none
    match regexErr with
    | some e => some e
    | none =>
      if goContains queryStr ":" then checkParts (splitQuery queryStr)
      else none
where
  checkParts : List String → Option String
  | [] => none
  | part :: rest =>
    if goContains part ":" then
      match goIndex part ":" with
      | some colonIndex =>
        if colonIndex = 0 || colonIndex = part.length - 1 then
          some ("invalid field query format: " ++ part)
        else checkParts rest
      | none => checkParts rest
    else checkParts rest

/-! ## The circular buffer (`pkg/ui/buffer.go`) -/

/-- `ui.CircularBuffer`.  The Go backing slice of length `capacity` is a
list of optional records (`nil` slots are `none`); the reader-writer lock
serialises access and has no functional content. -/
structure CircularBuffer where
  data : List (Option LogLine)
  head : Nat := 0
  tail : Nat := 0
  size : Nat := 0
  capacity : Nat

/-- `NewCircularBuffer`. -/
def CircularBuffer.new (capacity : Nat) : CircularBuffer :=
  { data := List.replicate capacity none, capacity := capacity }

/-- `CircularBuffer.Add`. -/
def CircularBuffer.add (cb : CircularBuffer) (line : LogLine) : CircularBuffer :=
  let data := cb.data.set cb.tail (some line)
  let tail := (cb.tail + 1) % cb.capacity
  if cb.size < cb.capacity then
    { cb with data := data, tail := tail, size := cb.size + 1 }
  else
    { cb with data := data, tail := tail, head := (cb.head + 1) % cb.capacity }

/-- `CircularBuffer.Get` (0-based from the oldest; out of range gives
`nil`). -/
def CircularBuffer.get (cb : CircularBuffer) (index : Nat) : Option LogLine :=
  if index < cb.size then cb.data.getD ((cb.head + index) % cb.capacity) none
  else none

/-- `CircularBuffer.Clear` (resets the offsets and nils every slot). -/
def CircularBuffer.clear (cb : CircularBuffer) : CircularBuffer :=
  { data := List.replicate cb.data.length none, head := 0, tail := 0, size := 0,
    capacity := cb.capacity }

/-- Append a whole list of records (`Add` in order). -/
def CircularBuffer.addAll (cb : CircularBuffer) (xs : List LogLine) : CircularBuffer :=
  xs.foldl CircularBuffer.add cb

/-- The buffer obtained by `Add`ing `xs`, oldest first, to a fresh buffer
of the given capacity. -/
def buildBuffer (capacity : Nat) (xs : List LogLine) : CircularBuffer :=
  (CircularBuffer.new capacity).addAll xs

/-- The retained records, oldest to newest: `Get 0, …, Get (size-1)`. -/
def CircularBuffer.contents (cb : CircularBuffer) : List LogLine :=
  (List.range cb.size).filterMap cb.get

/-! ## The coordinator (`pkg/ui`): batcher, model, filter change -/

/-- `ui.SimpleBatcher`.  `lastProcess`/`timeout` drive a wall-clock
condition; whether the 100 ms timeout has elapsed is passed as an explicit
boolean at each `AddLine` call. -/
structure SimpleBatcher where
  pendingLines : List LogLine := []
  batchSize : Nat := 1000

/-- The fields of `ui.Model` that the verified claims are about.  Pane
scroll state, the status message and the bookmark list do not influence
the stores or the filter and are omitted. -/
structure UiModel where
  filter : FilterEngine := {}
  allLinesBuffer : CircularBuffer
  filteredBuffer : CircularBuffer
  simpleBatcher : SimpleBatcher := {}
  isPaused : Bool := false

/-- `SimpleBatcher.processBatch`: commit every pending record to the main
store and, when a filter is present and matches, to the filtered store. -/
def processBatch (m : UiModel) : UiModel :=
  if m.simpleBatcher.pendingLines.isEmpty then m
  else
    let m' := m.simpleBatcher.pendingLines.foldl
      (fun acc line =>
        let acc := { acc with allLinesBuffer := acc.allLinesBuffer.add line }
        if acc.filter.hasFilter && acc.filter.feMatch line then
          { acc with filteredBuffer := acc.filteredBuffer.add line }
        else acc)
      m
    { m' with simpleBatcher := { m'.simpleBatcher with pendingLines := [] } }

/-- `SimpleBatcher.AddLine` (`timeoutReached` models
`now.Sub(lastProcess) >= timeout`). -/
def batcherAddLine (m : UiModel) (line : LogLine) (timeoutReached : Bool) : UiModel :=
  let m := { m with simpleBatcher :=
    { m.simpleBatcher with pendingLines := m.simpleBatcher.pendingLines ++ [line] } }
  if m.simpleBatcher.batchSize ≤ m.simpleBatcher.pendingLines.length || timeoutReached then
    processBatch m
  else m

/-- `Model.addLogLine`: parse first, then hand to the batcher.  (The
auto-scroll bookkeeping touches only elided pane state.) -/
def addLogLine (pm : ParserModel) (m : UiModel) (line : LogLine)
    (timeoutReached : Bool) : UiModel :=
  batcherAddLine m (parseLogLine pm line) timeoutReached

/-- `models.TailerEventType`. -/
inductive TailerEventType where
  | newLine | fileRotated | fileError | endOfFile
deriving DecidableEq, Repr

/-- `models.TailerEvent` (the `error` payload carries no structure the
claims need). -/
structure TailerEvent where
  type : TailerEventType
  source : String := ""
  line : Option LogLine := none
  message : String := ""

/-- `Model.handleTailerEvent`.  A `NewLine` is handed to `addLogLine`
only when a line is attached and the model is not paused; `FileError` and
`FileRotated` merely set the transient status message (elided). -/
def handleTailerEvent (pm : ParserModel) (m : UiModel) (event : TailerEvent)
    (timeoutReached : Bool) : UiModel :=
  match event.type with
  | .newLine =>
    match event.line with
    | some line => if !m.isPaused then addLogLine pm m line timeoutReached else m
    | none => m
  | _ => m

/-- The inner loop of `Model.ProcessAllExistingLines` over one batch
window `[i, eIdx)`. -/
def processRangeLoop (m : UiModel) (i eIdx : Nat) : UiModel :=
  if _h : i < eIdx then
    let m' :=
      match m.allLinesBuffer.get i with
      | some line =>
        if m.filter.feMatch line then
          { m with filteredBuffer := m.filteredBuffer.add line }
        else m
      | none => m
    processRangeLoop m' (i + 1) eIdx
  else m
termination_by eIdx - i

/-- The outer 1000-record batch loop of `Model.ProcessAllExistingLines`. -/
def processBatchesLoop (m : UiModel) (start total : Nat) : UiModel :=
  if _h : start < total then
    let eIdx := min (start + 1000) total
    processBatchesLoop (processRangeLoop m start eIdx) (start + 1000) total
  else m
termination_by total - start
decreasing_by omega

/-- `Model.ProcessAllExistingLines`: with no filter the filtered store is
cleared; otherwise (and only when the main store is non-empty) the
filtered store is cleared and rebuilt from the main store in 1000-record
windows. -/
def processAllExistingLines (m : UiModel) : UiModel :=
  if !m.filter.hasFilter then { m with filteredBuffer := m.filteredBuffer.clear }
  else
    let total := m.allLinesBuffer.size
    if total = 0 then m
    else
      processBatchesLoop { m with filteredBuffer := m.filteredBuffer.clear } 0 total

/-- `pad2` for 4 digits (year formatting). -/
def pad4 (n : Nat) : String :=
  if n < 10 then "000" ++ toString n
  else if n < 100 then "00" ++ toString n
  else if n < 1000 then "0" ++ toString n
  else toString n

/-- Civil date of an epoch-day count (standard `civil_from_days`). -/
def daysToCivil (days : Int) : Int × Nat × Nat :=
  let z := days + 719468
  let era : Int := (if 0 ≤ z then z else z - 146096) / 146097
  let doe : Int := z - era * 146097
  let yoe : Int := (doe - doe / 1460 + doe / 36524 - doe / 146096) / 365
  let y : Int := yoe + era * 400
  let doy : Int := doe - (365 * yoe + yoe / 4 - yoe / 100)
  let mp : Int := (5 * doy + 2) / 153
  let d : Int := doy - (153 * mp + 2) / 5 + 1
  let mo : Int := if mp < 10 then mp + 3 else mp - 9
  (if mo ≤ 2 then y + 1 else y, mo.toNat, d.toNat)

/-- Model of `t.Format("2006-01-02")` on the model's instants. -/
def formatDate (t : Int) : String :=
  let (y, mo, d) := daysToCivil (t / 86400)
  pad4 y.toNat ++ "-" ++ pad2 mo ++ "-" ++ pad2 d

/-- `Model.expandShortcuts` (`now` is the wall clock used by the `today`
and `last_hour` entries). -/
def expandShortcuts (now : Int) (query : String) : String :=
  let q := asciiLower query
  if q = "errors" then "level:ERROR"
  else if q = "warnings" then "level:WARN"
  else if q = "info" then "level:INFO"
  else if q = "debug" then "level:DEBUG"
  else if q = "5xx" then "status:>=500"
  else if q = "4xx" then "status:>=400 AND status:<500"
  else if q = "3xx" then "status:>=300 AND status:<400"
  else if q = "2xx" then "status:>=200 AND status:<300"
  else if q = "slow" then "response_time:>1000"
  else if q = "today" then
    "time:[" ++ formatDate now ++ " 00:00:00 TO " ++ formatDate now ++ " 23:59:59]"
  else if q = "last_hour" then
    "time:[" ++ formatHMS (now - 3600) ++ " TO " ++ formatHMS now ++ "]"
  else query

/-- `Model.isAdvancedQuery`. -/
def isAdvancedQuery (query : String) : Bool :=
  goContains query " AND " || goContains query " OR " || goContains query " NOT " ||
  goContains query "time:[" || goContains query ":>" || goContains query ":<" ||
  goContains query ":!=" || goContains query ":~" || 1 < query.data.count ':'

/-- The regex metacharacter set of `Model.applySearch` (Go string literal
`".*+?^${}[]|()"`). -/
def regexMetaChars : List Char :=
  ['.', '*', '+', '?', '^', '$', '\x7b', '\x7d', '[', ']', '|', '(', ')']

/-- The filter-installation step of `Model.applySearch`: the advanced or
the simple path, returning the updated model and the error.  (The source
computes `isRegex` once and uses it twice; the pure expression is written
out at both uses.) -/
def applySearchInstalled (m : UiModel) (now : Int) (actualQuery : String) :
    UiModel × Option String :=
  if isAdvancedQuery actualQuery then
    match m.filter.setAdvancedFilter now actualQuery with
    | (f, none) => ({ m with filter := f }, none)
    | (f, some e) => ({ m with filter := f }, some e)
  else
    match validateQuery actualQuery
        (actualQuery.data.any (fun c => regexMetaChars.contains c)) with
    | some e => (m, some e)
    | none =>
      match m.filter.setFilter
          { query := actualQuery,
            isRegex := actualQuery.data.any (fun c => regexMetaChars.contains c),
            caseSensitive := false } with
      | (f, none) => ({ m with filter := f }, none)
      | (f, some e) => ({ m with filter := f }, some e)

/-- `Model.applySearch` (`now` feeds the shortcut expansion).  Returns the
updated model together with the error, mirroring the Go method that
mutates the model and returns `error`; the model in the error case carries
whatever partial mutation had happened (only `lastOptions`). -/
def applySearch (m : UiModel) (now : Int) (searchInput : String) :
    UiModel × Option String :=
  if searchInput = "" then
    ({ m with filter := m.filter.clear, filteredBuffer := m.filteredBuffer.clear }, none)
  else
    match applySearchInstalled m now (expandShortcuts now searchInput) with
    | (m', none) => (processAllExistingLines (processBatch m'), none)
    | (m', some e) => (m', some e)

/-! ## The tailer (`pkg/tailer/tailer.go`) -/

/-- The stat result of `os.Stat` (`none` = stat error / file missing). -/
structure FileInfo where
  size : Int
  modTime : Int
deriving Repr

/-- The per-file follower state relevant to rotation and line emission. -/
structure FileWatcher where
  path : String := ""
  lastOffset : Int := 0
  lastSize : Int := 0
  lastModTime : Int := 0
  lineCounter : Nat := 0
  isRotating : Bool := false
deriving Repr

/-- `FileWatcher.checkRotation`: rotated when the stat fails, when the
size shrank, or when the modification time is *more than one minute newer*
than the last known one (`info.ModTime().After(fw.lastModTime.Add(time.Minute))`).
The source's error result is always nil. -/
def checkRotation (fw : FileWatcher) (stat : Option FileInfo) : Bool :=
  match stat with
  | none => true
  | some info =>
    decide (info.size < fw.lastSize) || decide (fw.lastModTime + 60 < info.modTime)

/-- The `LogLine` built by `Tailer.monitorFile` for a line of text read at
wall-clock instant `now`: the counter is bumped, the offset is the stale
`lastOffset`, and the timestamp is provisionally set to `now`. -/
def tailerNewLine (fw : FileWatcher) (text : String) (now : Int) :
    LogLine × FileWatcher :=
  let counter := fw.lineCounter + 1
  ({ id := fw.path ++ ":" ++ toString counter
     source := fw.path
     raw := text
     lineNum := counter
     offset := fw.lastOffset
     timestamp := some now },
   { fw with lineCounter := counter })

/-! ## Buffer lemmas: the ring buffer retains the last `capacity` records -/

theorem listGet?Set_ne {α} (l : List α) (i j : Nat) (a : α) (h : i ≠ j) :
    (l.set i a).get? j = l.get? j := by
  induction l generalizing i j with
  | nil => simp
  | cons b t ih =>
    cases i with
    | zero =>
      cases j with
      | zero => exact absurd rfl h
      | succ j => simp
    | succ i =>
      cases j with
      | zero => simp
      | succ j => simpa using ih i j (by omega)

theorem listGet?Set_self {α} (l : List α) (i : Nat) (a : α) (h : i < l.length) :
    (l.set i a).get? i = some a := by
  induction l generalizing i with
  | nil => simp at h
  | cons b t ih =>
    cases i with
    | zero => simp
    | succ i => simpa using ih i (by simpa using h)

theorem listGetD_eq_get? {α} (l : List α) (n : Nat) (d : α) :
    l.getD n d = (l.get? n).getD d := by
  induction l generalizing n with
  | nil => simp [List.getD]
  | cons b t ih =>
    cases n with
    | zero => simp [List.getD]
    | succ n => simpa [List.getD] using ih n

/-- The full characterization of a buffer built by `Add`ing `xs` to a
fresh buffer: sizes, offsets, and every retained slot. -/
def bufInv (c : Nat) (xs : List LogLine) (cb : CircularBuffer) : Prop :=
  cb.capacity = c ∧ cb.data.length = c ∧ cb.size = min xs.length c ∧
  cb.head = (xs.length - cb.size) % c ∧ cb.tail = xs.length % c ∧
  ∀ i, i < cb.size →
    cb.data.get? ((cb.head + i) % c) = some (xs.get? (xs.length - cb.size + i))

theorem bufInv_new (c : Nat) : bufInv c [] (CircularBuffer.new c) := by
  refine ⟨rfl, by simp [CircularBuffer.new], by simp [CircularBuffer.new],
    by simp [CircularBuffer.new], by simp [CircularBuffer.new], ?_⟩
  intro i hi
  simp [CircularBuffer.new] at hi

theorem bufInv_add (c : Nat) (hc : 0 < c) (xs : List LogLine) (cb : CircularBuffer)
    (x : LogLine) (h : bufInv c xs cb) : bufInv c (xs ++ [x]) (cb.add x) := by
  obtain ⟨hcap, hlen, hsize, hhead, htail, hget⟩ := h
  have hdata : (cb.add x).data = cb.data.set cb.tail (some x) := by
    simp only [CircularBuffer.add]; split <;> rfl
  have hcap' : (cb.add x).capacity = cb.capacity := by
    simp only [CircularBuffer.add]; split <;> rfl
  have htail' : (cb.add x).tail = (cb.tail + 1) % cb.capacity := by
    simp only [CircularBuffer.add]; split <;> rfl
  by_cases hlt : cb.size < c
  case pos =>
    have hsize' : (cb.add x).size = cb.size + 1 := by
      simp only [CircularBuffer.add, hcap, if_pos hlt]
    have hhead' : (cb.add x).head = cb.head := by
      simp only [CircularBuffer.add, hcap, if_pos hlt]
    have hxs : xs.length < c := by
      rcases Nat.lt_or_ge xs.length c with h' | h'
      · exact h'
      · rw [hsize, Nat.min_eq_right h'] at hlt; omega
    have hsz : cb.size = xs.length := by rw [hsize, Nat.min_eq_left (le_of_lt hxs)]
    have hhd : cb.head = 0 := by rw [hhead, hsz]; simp
    have htl : cb.tail = xs.length := by rw [htail, Nat.mod_eq_of_lt hxs]
    refine ⟨by rw [hcap', hcap], by rw [hdata]; simpa using hlen, ?_, ?_, ?_, ?_⟩
    · rw [hsize', hsz]
      simp only [List.length_append, List.length_singleton]
      rw [Nat.min_eq_left (by omega)]
    · rw [hhead', hsize', hhd, hsz]
      simp
    · rw [htail', hcap, htl]
      simp
    · intro i hi
      rw [hsize', hsz] at hi
      rw [hdata, hhead', hsize', hhd, Nat.zero_add]
      simp only [List.length_append, List.length_singleton]
      have hic : i < c := by omega
      rw [Nat.mod_eq_of_lt hic]
      have hsimp : xs.length + 1 - (cb.size + 1) + i = i := by omega
      rw [hsimp]
      by_cases hix : i = xs.length
      · subst hix
        rw [htl, listGet?Set_self _ _ _ (by omega)]
        simp
      · have hilt : i < xs.length := by omega
        rw [htl, listGet?Set_ne _ _ _ _ (by omega)]
        have hold := hget i (by omega)
        rw [hhd, Nat.zero_add, Nat.mod_eq_of_lt hic] at hold
        rw [hold, hsz]
        congr 1
        rw [Nat.sub_self, Nat.zero_add]
        exact (List.get?_append hilt).symm
  case neg =>
    have hsize' : (cb.add x).size = cb.size := by
      simp only [CircularBuffer.add, hcap, if_neg hlt]
    have hhead' : (cb.add x).head = (cb.head + 1) % c := by
      simp only [CircularBuffer.add, hcap, if_neg hlt]
    have hsz : cb.size = c := by
      rcases Nat.lt_or_ge xs.length c with h' | h'
      · rw [hsize, Nat.min_eq_left (le_of_lt h')] at hlt; omega
      · rw [hsize, Nat.min_eq_right h']
    have hcle : c ≤ xs.length := by
      rcases Nat.lt_or_ge xs.length c with h' | h'
      · rw [hsize, Nat.min_eq_left (le_of_lt h')] at hlt; omega
      · exact h'
    have hht : cb.head = cb.tail := by
      rw [hhead, htail, hsz]
      conv_rhs => rw [← Nat.sub_add_cancel hcle]
      rw [Nat.add_mod_right]
    have hheadlt : cb.head < c := by rw [hhead]; exact Nat.mod_lt _ hc
    refine ⟨by rw [hcap', hcap], by rw [hdata]; simpa using hlen, ?_, ?_, ?_, ?_⟩
    · rw [hsize', hsz]
      simp only [List.length_append, List.length_singleton]
      rw [Nat.min_eq_right (by omega)]
    · rw [hhead', hsize', hhead, hsz]
      simp only [List.length_append, List.length_singleton]
      have h1 : xs.length + 1 - c = (xs.length - c) + 1 := by omega
      rw [h1]
      exact ((Nat.mod_modEq (xs.length - c) c).add_right 1)
    · rw [htail', hcap, htail]
      simp only [List.length_append, List.length_singleton]
      exact ((Nat.mod_modEq xs.length c).add_right 1)
    · intro i hi
      rw [hsize', hsz] at hi
      rw [hdata, hhead', hsize', hsz]
      simp only [List.length_append, List.length_singleton]
      by_cases hic : i = c - 1
      · subst hic
        have hidx : ((cb.head + 1) % c + (c - 1)) % c = cb.head := by
          have h1 : ((cb.head + 1) % c + (c - 1)) % c = (cb.head + 1 + (c - 1)) % c :=
            (Nat.mod_modEq (cb.head + 1) c).add_right (c - 1)
          rw [h1]
          have h2 : cb.head + 1 + (c - 1) = cb.head + c := by omega
          rw [h2, Nat.add_mod_right, Nat.mod_eq_of_lt hheadlt]
        rw [hidx, hht, listGet?Set_self _ _ _ (by rw [hlen, ← hht]; exact hheadlt)]
        have hlast : xs.length + 1 - c + (c - 1) = xs.length := by omega
        rw [hlast]
        congr 1
        exact (List.get?_concat_length xs x).symm
      · have hic2 : i < c - 1 := by omega
        have hidx : ((cb.head + 1) % c + i) % c = (cb.head + (i + 1)) % c := by
          have h1 : ((cb.head + 1) % c + i) % c = (cb.head + 1 + i) % c :=
            (Nat.mod_modEq (cb.head + 1) c).add_right i
          rw [h1]; congr 1; omega
        rw [hidx]
        have hne : (cb.head + (i + 1)) % c ≠ cb.tail := by
          rw [← hht]
          intro heq
          have h1 : (cb.head + (i + 1)) % c = (cb.head + 0) % c := by
            rw [heq]
            conv_rhs => rw [Nat.add_zero, Nat.mod_eq_of_lt hheadlt]
          have h2 : (i + 1) % c = 0 % c :=
            Nat.ModEq.add_left_cancel' cb.head h1
          rw [Nat.zero_mod] at h2
          rw [Nat.mod_eq_of_lt (by omega)] at h2
          omega
        rw [listGet?Set_ne _ _ _ _ (Ne.symm hne)]
        have hold := hget (i + 1) (by omega)
        rw [hsz] at hold
        rw [hold]
        have hidx2 : xs.length + 1 - c + i = xs.length - c + (i + 1) := by omega
        rw [hidx2]
        congr 1
        exact (List.get?_append (by omega)).symm

theorem bufInv_addAll (c : Nat) (hc : 0 < c) (xs ys : List LogLine)
    (cb : CircularBuffer) (h : bufInv c xs cb) :
    bufInv c (xs ++ ys) (cb.addAll ys) := by
  induction ys generalizing xs cb with
  | nil => simpa [CircularBuffer.addAll] using h
  | cons y ys ih =>
    have h1 := bufInv_add c hc xs cb y h
    have h2 := ih (xs ++ [y]) (cb.add y) h1
    simpa [CircularBuffer.addAll, List.append_assoc] using h2

theorem buildBuffer_inv (c : Nat) (hc : 0 < c) (xs : List LogLine) :
    bufInv c xs (buildBuffer c xs) := by
  simpa using bufInv_addAll c hc [] xs (CircularBuffer.new c) (bufInv_new c)

theorem buildBuffer_size (c : Nat) (hc : 0 < c) (xs : List LogLine) :
    (buildBuffer c xs).size = min xs.length c :=
  (buildBuffer_inv c hc xs).2.2.1

theorem buildBuffer_capacity (c : Nat) (hc : 0 < c) (xs : List LogLine) :
    (buildBuffer c xs).capacity = c :=
  (buildBuffer_inv c hc xs).1

theorem buildBuffer_dataLength (c : Nat) (hc : 0 < c) (xs : List LogLine) :
    (buildBuffer c xs).data.length = c :=
  (buildBuffer_inv c hc xs).2.1

theorem buildBuffer_get (c : Nat) (hc : 0 < c) (xs : List LogLine) (i : Nat)
    (hi : i < (buildBuffer c xs).size) :
    (buildBuffer c xs).get i =
      xs.get? (xs.length - (buildBuffer c xs).size + i) := by
  obtain ⟨hcap, hlen, hsize, hhead, htail, hget⟩ := buildBuffer_inv c hc xs
  rw [CircularBuffer.get, if_pos hi, hcap, listGetD_eq_get?, hget i hi]
  rfl

theorem buildBuffer_get_oob (c : Nat) (xs : List LogLine) (i : Nat)
    (hi : ¬ i < (buildBuffer c xs).size) :
    (buildBuffer c xs).get i = none := by
  rw [CircularBuffer.get, if_neg hi]

theorem filterMapGetRange (xs : List LogLine) (off n : Nat) (h : off + n = xs.length) :
    (List.range n).filterMap (fun i => xs.get? (off + i)) = xs.drop off := by
  induction n generalizing off with
  | zero =>
    have h0 : off = xs.length := by omega
    subst h0
    simp
  | succ n ih =>
    have hofflt : off < xs.length := by omega
    rw [List.range_succ_eq_map, List.filterMap_cons, List.filterMap_map]
    have hget : xs.get? (off + 0) = some (xs.get ⟨off, hofflt⟩) := by
      rw [Nat.add_zero]; exact List.get?_eq_get hofflt
    rw [hget]
    have hcomp : (fun i => xs.get? (off + i)) ∘ Nat.succ = fun i => xs.get? (off + 1 + i) := by
      funext i
      simp only [Function.comp]
      congr 1
      omega
    rw [hcomp, ih (off + 1) (by omega)]
    exact (List.drop_eq_get_cons hofflt).symm

theorem buildBuffer_contents (c : Nat) (hc : 0 < c) (xs : List LogLine) :
    (buildBuffer c xs).contents = xs.drop (xs.length - min xs.length c) := by
  rw [CircularBuffer.contents]
  have hcongr : ∀ i ∈ List.range (buildBuffer c xs).size,
      (buildBuffer c xs).get i =
        xs.get? (xs.length - min xs.length c + i) := by
    intro i hi
    rw [List.mem_range] at hi
    rw [buildBuffer_get c hc xs i hi, buildBuffer_size c hc xs]
  rw [List.filterMap_congr hcongr, buildBuffer_size c hc xs]
  exact filterMapGetRange xs _ _ (by omega)

/-- A buffer holding at most its capacity retains everything, in order. -/
theorem buildBuffer_contents_small (c : Nat) (hc : 0 < c) (xs : List LogLine)
    (h : xs.length ≤ c) : (buildBuffer c xs).contents = xs := by
  rw [buildBuffer_contents c hc xs, Nat.min_eq_left h, Nat.sub_self, List.drop_zero]

/-- `Clear` of any buffer whose backing slice has the capacity's length is
the fresh buffer. -/
theorem clear_eq_new (cb : CircularBuffer) (h : cb.data.length = cb.capacity) :
    cb.clear = CircularBuffer.new cb.capacity := by
  rw [CircularBuffer.clear, CircularBuffer.new, h]

/-- The contents of a cleared buffer are empty. -/
theorem clear_contents (cb : CircularBuffer) : cb.clear.contents = [] := by
  rw [CircularBuffer.contents, CircularBuffer.clear]
  simp

/-! ## Filter-change lemmas: `ProcessAllExistingLines` rebuilds exactly
the matching records -/

/-- The records that the window `[i, e)` of `ProcessAllExistingLines`
appends: the non-nil, matching records in index order. -/
def selectRange (fe : FilterEngine) (buf : CircularBuffer) (i e : Nat) : List LogLine :=
  if _h : i < e then
    (match buf.get i with
     | some line => if fe.feMatch line then [line] else []
     | none => []) ++ selectRange fe buf (i + 1) e
  else []
termination_by e - i

theorem addAll_append (cb : CircularBuffer) (a b : List LogLine) :
    cb.addAll (a ++ b) = (cb.addAll a).addAll b :=
  List.foldl_append _ _ a b

/-- One appended record per loop step: the inner loop is `addAll` of
`selectRange`. -/
theorem processRangeLoop_eq (m : UiModel) (i e : Nat) :
    processRangeLoop m i e =
      { m with filteredBuffer :=
          m.filteredBuffer.addAll (selectRange m.filter m.allLinesBuffer i e) } := by
  suffices h : ∀ n m' i', e - i' = n → processRangeLoop m' i' e =
      { m' with filteredBuffer :=
          m'.filteredBuffer.addAll (selectRange m'.filter m'.allLinesBuffer i' e) } by
    exact h (e - i) m i rfl
  intro n
  induction n with
  | zero =>
    intro m' i' hn
    rw [processRangeLoop, dif_neg (by omega), selectRange, dif_neg (by omega)]
    rfl
  | succ n ih =>
    intro m' i' hn
    rw [processRangeLoop, dif_pos (by omega), selectRange, dif_pos (by omega)]
    rcases hget : m'.allLinesBuffer.get i' with _ | line
    · dsimp only
      rw [ih m' (i' + 1) (by omega)]
      rfl
    · dsimp only
      by_cases hm : m'.filter.feMatch line = true
      · rw [if_pos hm, if_pos hm]
        rw [ih { m' with filteredBuffer := m'.filteredBuffer.add line } (i' + 1) (by omega)]
        rw [addAll_append]
        rfl
      · rw [if_neg hm, if_neg hm]
        rw [ih m' (i' + 1) (by omega)]
        rfl

theorem selectRange_oob (fe : FilterEngine) (buf : CircularBuffer) (i e : Nat)
    (h : ¬ i < e) : selectRange fe buf i e = [] := by
  rw [selectRange, dif_neg h]

theorem selectRange_append (fe : FilterEngine) (buf : CircularBuffer) (i j e : Nat)
    (hij : i ≤ j) (hje : j ≤ e) :
    selectRange fe buf i j ++ selectRange fe buf j e = selectRange fe buf i e := by
  suffices h : ∀ n i', j - i' = n → i' ≤ j →
      selectRange fe buf i' j ++ selectRange fe buf j e = selectRange fe buf i' e by
    exact h (j - i) i rfl hij
  intro n
  induction n with
  | zero =>
    intro i' hn hij'
    have hij2 : i' = j := by omega
    subst hij2
    rw [selectRange_oob fe buf i' i' (by omega), List.nil_append]
  | succ n ih =>
    intro i' hn hij'
    have hlt : i' < j := by omega
    conv_lhs => rw [selectRange, dif_pos hlt]
    conv_rhs => rw [selectRange, dif_pos (show i' < e by omega)]
    rw [List.append_assoc]
    congr 1
    exact ih (i' + 1) (by omega) (by omega)

/-- The outer batch loop visits every index `[start, total)` exactly once
in order, so it too is `addAll` of `selectRange`. -/
theorem processBatchesLoop_eq (m : UiModel) (start total : Nat) :
    processBatchesLoop m start total =
      { m with filteredBuffer :=
          m.filteredBuffer.addAll (selectRange m.filter m.allLinesBuffer start total) } := by
  rw [processBatchesLoop]
  split
  case isTrue h =>
    dsimp only
    rw [processRangeLoop_eq, processBatchesLoop_eq _ (start + 1000) total]
    dsimp only
    rw [← addAll_append]
    congr 1
    apply congrArg
    by_cases hcase : start + 1000 ≤ total
    · rw [Nat.min_eq_left hcase]
      exact selectRange_append m.filter m.allLinesBuffer start (start + 1000) total
        (by omega) hcase
    · have h2 : total ≤ start + 1000 := by omega
      rw [Nat.min_eq_right h2,
        selectRange_oob m.filter m.allLinesBuffer (start + 1000) total (by omega),
        List.append_nil]
  case isFalse h =>
    rw [selectRange_oob _ _ _ _ h]
    rfl
termination_by total - start
decreasing_by omega

/-- `selectRange` over the whole buffer is exactly the filter of the
retained contents. -/
theorem selectRange_spec (fe : FilterEngine) (buf : CircularBuffer) (i e : Nat) :
    selectRange fe buf i e =
      ((List.range' i (e - i)).filterMap buf.get).filter (fun l => fe.feMatch l) := by
  suffices h : ∀ n i', e - i' = n → selectRange fe buf i' e =
      ((List.range' i' n).filterMap buf.get).filter (fun l => fe.feMatch l) by
    exact h (e - i) i rfl
  intro n
  induction n with
  | zero =>
    intro i' hn
    rw [selectRange_oob fe buf i' e (by omega)]
    simp
  | succ n ih =>
    intro i' hn
    rw [selectRange, dif_pos (by omega), List.range'_succ, List.filterMap_cons]
    rcases hget : buf.get i' with _ | line
    · rw [ih (i' + 1) (by omega)]
      simp
    · rw [List.filter_cons, ih (i' + 1) (by omega)]
      dsimp only
      by_cases hm : fe.feMatch line = true
      · rw [if_pos hm, if_pos (by simpa using hm)]
        simp
      · rw [if_neg hm, if_neg (by simpa using hm)]
        simp

theorem selectRange_contents (fe : FilterEngine) (buf : CircularBuffer) :
    selectRange fe buf 0 buf.size =
      buf.contents.filter (fun l => fe.feMatch l) := by
  rw [selectRange_spec, CircularBuffer.contents, Nat.sub_zero, List.range_eq_range']

/-- `ProcessAllExistingLines` leaves the main store and the engine alone
and rebuilds the filtered store as exactly the matching retained records
of the main store, in store order. -/
theorem pael_spec (m : UiModel) (c : Nat) (hc : 0 < c) (xs ys : List LogLine)
    (hmain : m.allLinesBuffer = buildBuffer c xs)
    (hfilt : m.filteredBuffer = buildBuffer c ys)
    (hempty : xs.length = 0 → ys.length = 0)
    (hflt : m.filter.hasFilter = true) :
    (processAllExistingLines m).filteredBuffer.contents =
      m.allLinesBuffer.contents.filter (fun l => m.filter.feMatch l) ∧
    (processAllExistingLines m).allLinesBuffer = m.allLinesBuffer ∧
    (processAllExistingLines m).filter = m.filter := by
  have hmainlen : m.allLinesBuffer.contents.length = min xs.length c := by
    rw [hmain, buildBuffer_contents c hc xs]
    simp only [List.length_drop]
    omega
  rw [processAllExistingLines, hflt]
  simp only [Bool.not_true, Bool.false_eq_true, if_false]
  by_cases h0 : m.allLinesBuffer.size = 0
  · rw [if_pos h0]
    have hxs0 : xs.length = 0 := by
      rw [hmain, buildBuffer_size c hc xs] at h0
      omega
    have hys0 : ys.length = 0 := hempty hxs0
    have hys : ys = [] := List.length_eq_zero.mp hys0
    have hxs : xs = [] := List.length_eq_zero.mp hxs0
    refine ⟨?_, rfl, rfl⟩
    rw [hfilt, hys, hmain, hxs]
    rw [buildBuffer_contents_small c hc [] (by simp)]
    simp
  · rw [if_neg h0, processBatchesLoop_eq]
    dsimp only
    refine ⟨?_, rfl, rfl⟩
    rw [selectRange_contents]
    have hclear : m.filteredBuffer.clear = CircularBuffer.new c := by
      rw [hfilt, clear_eq_new _ (by
        rw [buildBuffer_dataLength c hc ys, buildBuffer_capacity c hc ys])]
      rw [buildBuffer_capacity c hc ys]
    rw [hclear]
    have hlenle : (m.allLinesBuffer.contents.filter
        (fun l => m.filter.feMatch l)).length ≤ c := by
      calc (m.allLinesBuffer.contents.filter (fun l => m.filter.feMatch l)).length
          ≤ m.allLinesBuffer.contents.length := List.length_filter_le _ _
        _ ≤ c := by rw [hmainlen]; omega
    exact buildBuffer_contents_small c hc _ hlenle

/-! ## Bridging lemmas: a successful non-empty `set_filter` installs a
non-trivial filter -/

theorem mem_dropWhile_of_mem {α} (p : α → Bool) (l : List α) (a : α)
    (hp : p a = false) (h : a ∈ l) : a ∈ l.dropWhile p := by
  induction l with
  | nil => simp at h
  | cons b t ih =>
    rw [List.dropWhile_cons]
    by_cases hb : p b = true
    · rw [if_pos hb]
      rcases List.mem_cons.mp h with h | h
      · subst h; rw [hp] at hb; exact absurd hb (by simp)
      · exact ih h
    · rw [if_neg hb]
      exact h

theorem mem_trimChars {c : Char} {l : List Char} (hc : goIsWhitespace c = false)
    (h : c ∈ l) : c ∈ trimChars l := by
  unfold trimChars
  rw [List.mem_reverse]
  apply mem_dropWhile_of_mem _ _ _ hc
  rw [List.mem_reverse]
  exact mem_dropWhile_of_mem _ _ _ hc h

theorem listIndexOf_single_isSome (l : List Char) (c : Char) :
    (listIndexOf l [c]).isSome = true ↔ c ∈ l := by
  induction l with
  | nil => simp [listIndexOf]
  | cons d rest ih =>
    rw [listIndexOf]
    have hsw : listStartsWith [c] (d :: rest) = (decide (c = d) && true) := rfl
    by_cases hd : c = d
    · subst hd
      rw [if_pos (by rw [hsw]; simp)]
      simp
    · rw [if_neg (by rw [hsw]; simp [hd])]
      have hmap : ((listIndexOf rest [c]).map (· + 1)).isSome
          = (listIndexOf rest [c]).isSome := by
        cases listIndexOf rest [c] <;> rfl
      rw [hmap, ih]
      simp [List.mem_cons, hd]

theorem goContains_colon_iff (s : String) :
    goContains s ":" = true ↔ ':' ∈ s.data := by
  show (listIndexOf s.data ":".data).isSome = true ↔ ':' ∈ s.data
  exact listIndexOf_single_isSome s.data ':'

theorem splitQueryAux_colon (l : List Char) (current : List Char) (p : Int) (q : Bool)
    (h : ':' ∈ l ∨ ':' ∈ current) :
    ∃ part ∈ splitQueryAux l current p q, ':' ∈ part.data := by
  induction l generalizing current p q with
  | nil =>
    rcases h with h | h
    · simp at h
    · have hne : ¬ current.isEmpty := by
        rcases current with _ | _
        · simp at h
        · simp
      rw [splitQueryAux, if_neg (by simpa using hne)]
      refine ⟨_, List.mem_singleton_self _, ?_⟩
      show ':' ∈ (goTrim (String.mk current.reverse)).data
      exact mem_trimChars (by decide) (by simpa using h)
  | cons c rest ih =>
    have hnext : c ≠ ' ' → (':' ∈ rest ∨ ':' ∈ c :: current) := by
      intro _
      rcases h with h | h
      · rcases List.mem_cons.mp h with h | h
        · right; rw [h]; exact List.mem_cons_self _ _
        · left; exact h
      · right; exact List.mem_cons_of_mem _ h
    rw [splitQueryAux]
    by_cases h1 : c = '"'
    · rw [if_pos h1]
      exact ih _ _ _ (hnext (by rw [h1]; decide))
    · rw [if_neg h1]
      by_cases h2 : c = '('
      · rw [if_pos h2]
        exact ih _ _ _ (hnext (by rw [h2]; decide))
      · rw [if_neg h2]
        by_cases h3 : c = ')'
        · rw [if_pos h3]
          exact ih _ _ _ (hnext (by rw [h3]; decide))
        · rw [if_neg h3]
          by_cases h4 : c = ' '
          · rw [if_pos h4]
            have hcr : ':' ∈ rest ∨ ':' ∈ current := by
              rcases h with h | h
              · rcases List.mem_cons.mp h with h | h
                · rw [h4] at h; simp at h
                · left; exact h
              · right; exact h
            by_cases h5 : (!q && decide (p = 0)) = true
            · rw [if_pos h5]
              by_cases h6 : current.isEmpty
              · rw [if_pos h6]
                rcases hcr with hcr | hcr
                · exact ih _ _ _ (Or.inl hcr)
                · rcases current with _ | _
                  · simp at hcr
                  · simp at h6
              · rw [if_neg h6]
                rcases hcr with hcr | hcr
                · obtain ⟨part, hmem, hcol⟩ := ih [] p q (Or.inl hcr)
                  exact ⟨part, List.mem_cons_of_mem _ hmem, hcol⟩
                · refine ⟨_, List.mem_cons_self _ _, ?_⟩
                  show ':' ∈ (goTrim (String.mk current.reverse)).data
                  exact mem_trimChars (by decide) (by simpa using hcr)
            · rw [if_neg h5]
              refine ih _ _ _ ?_
              rcases hcr with hcr | hcr
              · exact Or.inl hcr
              · exact Or.inr (List.mem_cons_of_mem _ hcr)
          · rw [if_neg h4]
            exact ih _ _ _ (hnext h4)

theorem splitQuery_colon (s : String) (h : goContains s ":" = true) :
    ∃ part ∈ splitQuery s, goContains part ":" = true := by
  obtain ⟨part, hmem, hcol⟩ :=
    splitQueryAux_colon s.data [] 0 false (Or.inl ((goContains_colon_iff s).mp h))
  exact ⟨part, hmem, (goContains_colon_iff part).mpr hcol⟩

theorem parseFieldQueriesGo_mono (parts : List String) (q res : CompiledQuery)
    (h : parseFieldQueriesGo parts q = .ok res) :
    q.fieldQueries.length ≤ res.fieldQueries.length := by
  induction parts generalizing q with
  | nil =>
    rw [parseFieldQueriesGo] at h
    cases h
    exact Nat.le_refl _
  | cons part rest ih =>
    rw [parseFieldQueriesGo] at h
    by_cases hc : goContains part ":" = true
    · rw [if_neg (by simp [hc])] at h
      cases hpf : parseFieldQuery part q.isRegex q.caseSensitive with
      | error e => rw [hpf] at h; exact absurd h (by simp)
      | ok fq =>
        rw [hpf] at h
        have := ih _ h
        simp only [List.length_append, List.length_singleton] at this
        omega
    · rw [if_pos (by simp [Bool.not_eq_true] at hc ⊢; exact hc)] at h
      dsimp only at h
      by_cases hk : q.keywordQuery = ""
      · rw [if_pos hk] at h
        simpa using ih _ h
      · rw [if_neg hk] at h
        exact ih _ h

theorem parseFieldQueriesGo_colon (parts : List String) (q res : CompiledQuery)
    (h : parseFieldQueriesGo parts q = .ok res)
    (hp : ∃ part ∈ parts, goContains part ":" = true) :
    res.fieldQueries ≠ [] := by
  induction parts generalizing q with
  | nil =>
    obtain ⟨part, hmem, _⟩ := hp
    simp at hmem
  | cons part rest ih =>
    rw [parseFieldQueriesGo] at h
    by_cases hc : goContains part ":" = true
    · rw [if_neg (by simp [hc])] at h
      cases hpf : parseFieldQuery part q.isRegex q.caseSensitive with
      | error e => rw [hpf] at h; exact absurd h (by simp)
      | ok fq =>
        rw [hpf] at h
        have hmono := parseFieldQueriesGo_mono rest _ res h
        intro hres
        rw [hres] at hmono
        simp at hmono
    · rw [if_pos (by simp [Bool.not_eq_true] at hc ⊢; exact hc)] at h
      obtain ⟨p0, hmem, hcol⟩ := hp
      rcases List.mem_cons.mp hmem with heq | hmem'
      · rw [heq] at hcol
        exact absurd hcol hc
      · dsimp only at h
        by_cases hk : q.keywordQuery = ""
        · rw [if_pos hk] at h
          exact ih _ h ⟨p0, hmem', hcol⟩
        · rw [if_neg hk] at h
          exact ih _ h ⟨p0, hmem', hcol⟩

theorem asciiLower_ne_empty (s : String) (h : s ≠ "") : asciiLower s ≠ "" := by
  intro hx
  rcases s with ⟨l⟩
  rcases l with _ | ⟨c, t⟩
  · exact h rfl
  · exact absurd (congrArg String.data hx) (by simp [asciiLower])

/-- A non-empty simple query that compiles installs at least one of a
keyword, a pattern or a field query (so `HasFilter` is true). -/
theorem compileQuery_nontrivial (options : FilterOptions) (q : CompiledQuery)
    (hq : options.query ≠ "") (h : compileQuery options = .ok q) :
    q.keywordQuery ≠ "" ∨ q.pattern.isSome = true ∨ q.fieldQueries ≠ [] := by
  rw [compileQuery, if_pos hq] at h
  rw [parseMainQuery] at h
  by_cases hcol : goContains options.query ":" = true
  · rw [if_pos hcol] at h
    rw [parseFieldQueries] at h
    refine Or.inr (Or.inr ?_)
    exact parseFieldQueriesGo_colon _ _ _ h (splitQuery_colon _ hcol)
  · rw [if_neg hcol] at h
    by_cases hre : options.isRegex = true
    · simp only [hre, if_true] at h
      cases hrc : regexpCompile (((if !options.caseSensitive then "(?i)" else "") : String)
          ++ options.query) with
      | ok p =>
        rw [hrc] at h
        cases h
        exact Or.inr (Or.inl rfl)
      | error e => rw [hrc] at h; exact absurd h (by simp)
    · simp only [show options.isRegex = false by simpa using hre, if_false] at h
      cases h
      refine Or.inl ?_
      by_cases hcs : options.caseSensitive = true
      · simpa [hcs] using hq
      · simp only [show options.caseSensitive = false by simpa using hcs]
        simpa using asciiLower_ne_empty _ hq

theorem setFilter_advanced_preserved (f : FilterEngine) (options : FilterOptions) :
    (f.setFilter options).1.advancedExpression = f.advancedExpression := by
  rw [FilterEngine.setFilter]
  cases compileQuery options <;> rfl

theorem setFilter_ok_compiled (f : FilterEngine) (options : FilterOptions)
    (f' : FilterEngine) (h : f.setFilter options = (f', none)) :
    ∃ q, compileQuery options = .ok q ∧
      f' = { f with lastOptions := options, compiledQuery := some q } := by
  rw [FilterEngine.setFilter] at h
  cases hc : compileQuery options with
  | error e =>
    rw [hc] at h
    exact absurd (congrArg Prod.snd h) (by simp)
  | ok q =>
    rw [hc] at h
    exact ⟨q, rfl, (congrArg Prod.fst h).symm⟩

theorem setAdvancedFilter_ok (f : FilterEngine) (now : Int) (qs : String)
    (f' : FilterEngine) (hq : qs ≠ "") (h : f.setAdvancedFilter now qs = (f', none)) :
    ∃ e, parseAdvancedQuery now qs = .ok e ∧
      f' = { f with compiledQuery := some { keywordQuery := qs },
                    advancedExpression := some e } := by
  rw [FilterEngine.setAdvancedFilter, if_neg hq] at h
  cases hp : parseAdvancedQuery now qs with
  | error e =>
    rw [hp] at h
    exact absurd (congrArg Prod.snd h) (by simp)
  | ok e =>
    rw [hp] at h
    exact ⟨e, rfl, (congrArg Prod.fst h).symm⟩

theorem hasFilter_of_advanced (f : FilterEngine) (e : QueryExpression)
    (h : f.advancedExpression = some e) : f.hasFilter = true := by
  rw [FilterEngine.hasFilter, h]
  simp

theorem hasFilter_of_compiled (f : FilterEngine) (q : CompiledQuery)
    (hcq : f.compiledQuery = some q)
    (h : q.keywordQuery ≠ "" ∨ q.pattern.isSome = true ∨ q.fieldQueries ≠ []) :
    f.hasFilter = true := by
  rw [FilterEngine.hasFilter, hcq]
  rcases h with h | h | h <;> simp [h]

theorem processBatch_empty (m : UiModel) (h : m.simpleBatcher.pendingLines = []) :
    processBatch m = m := by
  rw [processBatch, if_pos (by simp [h])]

theorem append_ne_empty_right (a b : String) (hb : b ≠ "") : a ++ b ≠ "" := by
  intro hx
  apply hb
  have h1 := congrArg String.data hx
  rw [String.data_append] at h1
  have h2 : b.data = [] := (List.append_eq_nil.mp h1).2
  exact String.ext h2

set_option maxHeartbeats 1000000 in
theorem expandShortcuts_ne (now : Int) (q : String) (h : q ≠ "") :
    expandShortcuts now q ≠ "" := by
  rw [expandShortcuts]
  repeat' split
  all_goals first
    | exact h
    | exact append_ne_empty_right _ _ (by decide)
    | decide

/-- C1 (amended): after a successful `applySearch` (the coordinator's
`set_filter`), the filtered store holds exactly the records of the main
store accepted by the engine's *current* `Match` predicate — which, when a
previously installed advanced expression is still present, is that stale
expression rather than the just-compiled query — in store order, and the
main store is untouched. -/
theorem applySearch_completeness
    (m m' : UiModel) (now : Int) (input : String) (c : Nat)
    (hc : 0 < c) (xs ys : List LogLine)
    (hmain : m.allLinesBuffer = buildBuffer c xs)
    (hfilt : m.filteredBuffer = buildBuffer c ys)
    (hempty : xs.length = 0 → ys.length = 0)
    (hpend : m.simpleBatcher.pendingLines = [])
    (happ : applySearch m now input = (m', none)) :
    m'.filteredBuffer.contents =
      m'.allLinesBuffer.contents.filter (fun l => m'.filter.feMatch l) ∧
    m'.allLinesBuffer = m.allLinesBuffer := by
  rw [applySearch] at happ
  by_cases hin : input = ""
  · rw [if_pos hin] at happ
    have hm' := congrArg Prod.fst happ
    dsimp only at hm'
    subst hm'
    refine ⟨?_, rfl⟩
    dsimp only
    rw [clear_contents]
    symm
    rw [List.filter_eq_nil]
    intro a _
    simp [FilterEngine.feMatch, FilterEngine.clear]
  · rw [if_neg hin] at happ
    have haq : expandShortcuts now input ≠ "" := expandShortcuts_ne now input hin
    have hinstall : ∃ f1, applySearchInstalled m now (expandShortcuts now input)
        = ({ m with filter := f1 }, none) ∧ f1.hasFilter = true := by
      by_cases hadv : isAdvancedQuery (expandShortcuts now input) = true
      · rcases hsa : m.filter.setAdvancedFilter now (expandShortcuts now input)
          with ⟨f1, err⟩
        have hinst2 : applySearchInstalled m now (expandShortcuts now input)
            = (match (f1, err) with
               | (f, none) => ({ m with filter := f }, none)
               | (f, some e) => ({ m with filter := f }, some e)) := by
          rw [applySearchInstalled, if_pos hadv, hsa]
        cases err with
        | some e =>
          dsimp only at hinst2
          rw [hinst2] at happ
          dsimp only at happ
          exact absurd (congrArg Prod.snd happ) (by simp)
        | none =>
          dsimp only at hinst2
          obtain ⟨e, _, hf1⟩ :=
            setAdvancedFilter_ok m.filter now (expandShortcuts now input) f1 haq hsa
          exact ⟨f1, hinst2, hasFilter_of_advanced f1 e (by rw [hf1])⟩
      · rcases hv : validateQuery (expandShortcuts now input)
            ((expandShortcuts now input).data.any fun c => regexMetaChars.contains c)
          with _ | e
        · rcases hsf : m.filter.setFilter
              { query := expandShortcuts now input,
                isRegex := (expandShortcuts now input).data.any
                  fun c => regexMetaChars.contains c,
                caseSensitive := false } with ⟨f1, err⟩
          have hinst2 : applySearchInstalled m now (expandShortcuts now input)
              = (match (f1, err) with
                 | (f, none) => ({ m with filter := f }, none)
                 | (f, some e) => ({ m with filter := f }, some e)) := by
            rw [applySearchInstalled, if_neg hadv, hv, hsf]
          cases err with
          | some e =>
            dsimp only at hinst2
            rw [hinst2] at happ
            dsimp only at happ
            exact absurd (congrArg Prod.snd happ) (by simp)
          | none =>
            dsimp only at hinst2
            obtain ⟨q, hcq, hf1⟩ := setFilter_ok_compiled m.filter _ f1 hsf
            exact ⟨f1, hinst2, hasFilter_of_compiled f1 q (by rw [hf1])
              (compileQuery_nontrivial _ q haq hcq)⟩
        · have hinst2 : applySearchInstalled m now (expandShortcuts now input)
              = (m, some e) := by
            rw [applySearchInstalled, if_neg hadv, hv]
          rw [hinst2] at happ
          dsimp only at happ
          exact absurd (congrArg Prod.snd happ) (by simp)
    obtain ⟨f1, hins, hhf⟩ := hinstall
    rw [hins] at happ
    dsimp only at happ
    have hm' := congrArg Prod.fst happ
    dsimp only at hm'
    have hpb : processBatch { m with filter := f1 } = { m with filter := f1 } :=
      processBatch_empty _ hpend
    rw [hpb] at hm'
    obtain ⟨hcont, hall, hfil⟩ :=
      pael_spec { m with filter := f1 } c hc xs ys hmain hfilt hempty hhf
    subst hm'
    refine ⟨?_, hall⟩
    rw [hall, hfil]
    exact hcont

/-! ## The claims -/

/-- C4: for every capacity `c > 0` and every finite sequence of appends to
a fresh circular store, the size never exceeds `c`; `get (size-1)` is the
most recently appended record (which is never the evicted one); and for
`i < j < size` the record at `get i` sits at an earlier append position
than the record at `get j`. -/
theorem c4_circular_store_invariants (c : Nat) (hc : 0 < c) (xs : List LogLine) :
    (buildBuffer c xs).size ≤ c ∧
    (xs ≠ [] → (buildBuffer c xs).get ((buildBuffer c xs).size - 1) = xs.getLast?) ∧
    (∀ i j, i < j → j < (buildBuffer c xs).size →
      ∃ ki kj, ki < kj ∧ kj < xs.length ∧
        (buildBuffer c xs).get i = xs.get? ki ∧
        (buildBuffer c xs).get j = xs.get? kj) := by
  have hsz := buildBuffer_size c hc xs
  refine ⟨by rw [hsz]; omega, ?_, ?_⟩
  · intro hne
    have hlen : 0 < xs.length := List.length_pos.mpr hne
    have hszpos : 0 < (buildBuffer c xs).size := by rw [hsz]; omega
    rw [buildBuffer_get c hc xs _ (by omega)]
    rw [List.getLast?_eq_get? xs]
    congr 1
    rw [hsz]
    omega
  · intro i j hij hj
    refine ⟨xs.length - (buildBuffer c xs).size + i,
      xs.length - (buildBuffer c xs).size + j, by omega, ?_, ?_, ?_⟩
    · rw [hsz] at hj ⊢
      omega
    · exact buildBuffer_get c hc xs i (by omega)
    · exact buildBuffer_get c hc xs j hj

def c4r1 : LogLine := { raw := "alpha" }
def c4r2 : LogLine := { raw := "beta" }
def c4r3 : LogLine := { raw := "gamma" }

/-- C4 witness: the invariants hold concretely for capacity 2 and three
appends (one eviction). -/
theorem c4_witness :
    0 < 2 ∧
    ((buildBuffer 2 [c4r1, c4r2, c4r3]).size ≤ 2 ∧
    ([c4r1, c4r2, c4r3] ≠ [] →
      (buildBuffer 2 [c4r1, c4r2, c4r3]).get
        ((buildBuffer 2 [c4r1, c4r2, c4r3]).size - 1) = [c4r1, c4r2, c4r3].getLast?) ∧
    (∀ i j, i < j → j < (buildBuffer 2 [c4r1, c4r2, c4r3]).size →
      ∃ ki kj, ki < kj ∧ kj < [c4r1, c4r2, c4r3].length ∧
        (buildBuffer 2 [c4r1, c4r2, c4r3]).get i = [c4r1, c4r2, c4r3].get? ki ∧
        (buildBuffer 2 [c4r1, c4r2, c4r3]).get j = [c4r1, c4r2, c4r3].get? kj)) :=
  ⟨by decide, c4_circular_store_invariants 2 (by decide) [c4r1, c4r2, c4r3]⟩

/-- The rotation condition as claim C5 words it (modelled from the spec):
stat failure, size shrink, or modification time moved *backward* by more
than one minute. -/
def rotationSpecClaim (fw : FileWatcher) (stat : Option FileInfo) : Bool :=
  match stat with
  | none => true
  | some info =>
    decide (info.size < fw.lastSize) || decide (info.modTime < fw.lastModTime - 60)

/-- The amended rotation condition: clause (c) fires when the modification
time moved *forward* by more than one minute (file newer than expected). -/
def rotationSpecAmended (fw : FileWatcher) (stat : Option FileInfo) : Bool :=
  match stat with
  | none => true
  | some info =>
    decide (info.size < fw.lastSize) || decide (fw.lastModTime + 60 < info.modTime)

def c5watcher : FileWatcher := { path := "x.log", lastSize := 100, lastModTime := 1000 }

/-- C5 counterexample: a stat whose modification time moved backward by
200 s (size unchanged) is rotated per the claim's wording but not per the
code, which only looks for forward movement. -/
theorem c5_counterexample :
    checkRotation c5watcher (some { size := 100, modTime := 800 }) = false ∧
    rotationSpecClaim c5watcher (some { size := 100, modTime := 800 }) = true ∧
    checkRotation c5watcher (some { size := 100, modTime := 1100 }) = true ∧
    rotationSpecClaim c5watcher (some { size := 100, modTime := 1100 }) = false :=
  ⟨rfl, rfl, rfl, rfl⟩

/-- C5 (amended): the follower deems the file rotated exactly when stat
fails, the size shrank, or the modification time moved forward by more
than one minute; no other stat outcome is reported as a rotation. -/
theorem c5_amended_rotation (fw : FileWatcher) (stat : Option FileInfo) :
    checkRotation fw stat = rotationSpecAmended fw stat := by
  cases stat <;> rfl

def c6line : LogLine := { raw := "\x7b\"level\":\"ERROR\",\"component\":\"db\"\x7d" }
def c6model : UiModel :=
  { allLinesBuffer := buildBuffer 4 [], filteredBuffer := buildBuffer 4 [],
    isPaused := true }

/-- C6 counterexample: while paused, handling a `NewLine` leaves the whole
model untouched and never invokes the parser — though parsing the record
would have populated its level — so the record is *not* "parsed but
discarded" as the claim states. -/
theorem c6_counterexample :
    handleTailerEvent refParserModel c6model
      { type := .newLine, line := some c6line } false = c6model ∧
    (parseLogLine refParserModel c6line).level = "ERROR" ∧
    (parseLogLine refParserModel c6line).parsed.isSome = true ∧
    c6line.level = "" ∧ c6line.parsed = none :=
  ⟨rfl, rfl, rfl, rfl, rfl⟩

/-- C6 (amended): while paused, `handle_event(NewLine)` discards the
record without parsing it — neither store changes and the model (hence
every record field) is exactly as before the event. -/
theorem c6_amended_paused_discard (pm : ParserModel) (m : UiModel)
    (event : TailerEvent) (timeoutReached : Bool)
    (hp : m.isPaused = true) (ht : event.type = .newLine) :
    handleTailerEvent pm m event timeoutReached = m := by
  rw [handleTailerEvent, ht]
  cases event.line with
  | none => rfl
  | some line => simp [hp]

/-- C6 witness: the amended statement applied to the concrete paused
model. -/
theorem c6_amended_witness :
    c6model.isPaused = true ∧
    handleTailerEvent refParserModel c6model
      { type := .newLine, line := some { raw := "x" } } true = c6model :=
  ⟨rfl, c6_amended_paused_discard refParserModel c6model
    { type := .newLine, line := some { raw := "x" } } true rfl rfl⟩

def c3watcher : FileWatcher := { path := "app.log" }
def c3rawline : LogLine := (tailerNewLine c3watcher "hello world" 1000).1
def c3line : LogLine := parseLogLine refParserModel c3rawline

/-- C3: evaluation of the code at the failing input.  The raw text
"hello world" yields no parsed timestamp, yet the tailer's provisional
wall-clock timestamp (instant 1000) survives the parser, so the
`TimeRange` node matches the record; likewise the simple-filter time axis
does not exclude a record whose timestamp is the zero time.  Both
contradict "records without a parsed timestamp never match". -/
theorem c3_code_evaluation :
    c3line.parsed = none ∧
    refExtractTsRaw "hello world" = none ∧
    c3line.timestamp = some 1000 ∧
    (QueryExpression.qtime 500 1500).evaluate c3line = true ∧
    matchLine { raw := "no timestamp here" }
      { timeRange := some { start := 500, stop := 1500 } } = true :=
  ⟨rfl, rfl, rfl, rfl, rfl⟩

def c1line : LogLine := { raw := "ERROR while idle", level := "ERROR" }

def c1engine : FilterEngine :=
  (({} : FilterEngine).setAdvancedFilter 0 "level:ERROR AND level:ERROR").1

def c1model : UiModel :=
  { filter := c1engine, allLinesBuffer := buildBuffer 4 [c1line],
    filteredBuffer := buildBuffer 4 [] }

def c1mid : UiModel :=
  { c1model with filter := (c1engine.setFilter
      { query := "boom", isRegex := false, caseSensitive := false }).1 }

def c1q : CompiledQuery := { keywordQuery := "boom" }

/-- C1 counterexample: an engine still carrying a previously installed
advanced expression accepts `set_filter("boom")` (the call succeeds and
compiles `"boom"` to a keyword query), yet the rebuilt filtered store
contains the record `"ERROR while idle"`, which the compiled query
`"boom"` does *not* match — `Match` still evaluates the stale advanced
expression, so the claim's "exactly those records for which match(q, r)
holds" fails for the just-installed `q`. -/
theorem c1_counterexample :
    (applySearch c1model 0 "boom").2 = none ∧
    compileQuery { query := "boom", isRegex := false, caseSensitive := false } = .ok c1q ∧
    matchLine c1line c1q = false ∧
    (applySearch c1model 0 "boom").1.allLinesBuffer.contents = [c1line] ∧
    (applySearch c1model 0 "boom").1.filteredBuffer.contents = [c1line] := by
  refine ⟨rfl, rfl, rfl, ?_, ?_⟩
  · show (processAllExistingLines c1mid).allLinesBuffer.contents = [c1line]
    obtain ⟨_, hall, _⟩ := pael_spec c1mid 4 (by decide) [c1line] []
      rfl rfl (fun h => rfl) rfl
    rw [hall]
    rfl
  · show (processAllExistingLines c1mid).filteredBuffer.contents = [c1line]
    obtain ⟨hcont, _, _⟩ := pael_spec c1mid 4 (by decide) [c1line] []
      rfl rfl (fun h => rfl) rfl
    rw [hcont]
    rfl

def c1wmodel : UiModel :=
  { allLinesBuffer := buildBuffer 4 [c1line], filteredBuffer := buildBuffer 4 [] }

def c1wmodel2 : UiModel := (applySearch c1wmodel 0 "boom").1

/-- C1 witness: the amended completeness applied to a concrete fresh
model (no stale advanced expression) and the query `"boom"`. -/
theorem c1_witness :
    (0 : Nat) < 4 ∧
    (c1wmodel2.filteredBuffer.contents =
      c1wmodel2.allLinesBuffer.contents.filter (fun l => c1wmodel2.filter.feMatch l) ∧
    c1wmodel2.allLinesBuffer = c1wmodel.allLinesBuffer) :=
  ⟨by decide, applySearch_completeness c1wmodel c1wmodel2 0 "boom" 4 (by decide)
    [c1line] [] rfl rfl (fun h => rfl) rfl rfl⟩

def s2raw : String :=
  "\x7b\"level\":\"ERROR\",\"status\":502,\"msg\":\"bad gateway\"\x7d"

def s2line : LogLine := parseLogLine refParserModel { raw := s2raw }

def c2treeA : QueryExpression :=
  .qand (.qfield "level" ":" "ERROR" none) (.qfield "status" ":>" "=500" none)

def c2treeB : QueryExpression := .qfield "status" ":" "500" none

def c2treeC : QueryExpression :=
  .qand (.qfield "level" ":" "WARN" none) (.qfield "status" ":>" "=500" none)

/-- C2 counterexample: on the record parsed from the S2 raw line the
query `level:ERROR AND status:>=500` evaluates *false* (the claim expects
true): the operator search tries `:>` before `:>=`, so `status:>=500`
parses as field `status`, operator `:>`, value `=500`; `=500` does not
parse as a number, the comparison falls back to lexicographic, and
`"502" > "=500"` is false.  `status:500` also evaluates false (claim:
true) since `:` is equality and `"502" ≠ "500"`; `level:WARN AND
status:>=500` is false as the claim expects. -/
theorem c2_counterexample :
    parseAdvancedQuery 0 "level:ERROR AND status:>=500" = .ok c2treeA ∧
    parseAdvancedQuery 0 "status:500" = .ok c2treeB ∧
    parseAdvancedQuery 0 "level:WARN AND status:>=500" = .ok c2treeC ∧
    extractFieldValue s2line "status" = "502" ∧
    extractFieldValue s2line "level" = "ERROR" ∧
    c2treeA.evaluate s2line = false ∧
    c2treeB.evaluate s2line = false ∧
    c2treeC.evaluate s2line = false ∧
    findOperator "status:>=500" = some ("status", ":>", "=500") :=
  ⟨rfl, rfl, rfl, rfl, rfl, rfl, rfl, rfl, rfl⟩

/-- The comparison semantics exactly as the spec words them (modelled from
the spec, for comparison with the source's `matchComparison`): numeric
comparison when both sides parse as numbers, lexicographic string
comparison otherwise. -/
def specComparison (fieldValue queryValue operator : String) : Bool :=
  match goParseFloat fieldValue, goParseFloat queryValue with
  | some fieldNum, some queryNum =>
    if operator = ":>" then decide (fieldNum > queryNum)
    else if operator = ":<" then decide (fieldNum < queryNum)
    else if operator = ":>=" then decide (fieldNum ≥ queryNum)
    else decide (fieldNum ≤ queryNum)
  | _, _ =>
    if operator = ":>" then goStrGt fieldValue queryValue
    else if operator = ":<" then goStrLt fieldValue queryValue
    else if operator = ":>=" then !goStrLt fieldValue queryValue
    else !goStrGt fieldValue queryValue

/-- C2 (amended): at the evaluation level the dichotomy the spec states
does hold — for each of the four comparison operators, `matchComparison`
performs the numeric comparison when both sides parse as numbers and the
lexicographic string comparison otherwise.  (The S2 expectations fail
earlier, in the parser's operator split, not here.) -/
theorem c2_amended (fieldValue queryValue op : String)
    (hop : op = ":>" ∨ op = ":<" ∨ op = ":>=" ∨ op = ":<=") :
    matchComparison fieldValue queryValue op =
      specComparison fieldValue queryValue op := by
  rcases hop with h | h | h | h <;> subst h <;>
    unfold matchComparison specComparison <;>
    cases goParseFloat fieldValue <;> cases goParseFloat queryValue <;>
    first
      | rfl
      | (unfold matchComparisonStr; rfl)

/-- C2 witness: the amended dichotomy at the operator `:>=` with operands
`502` and `500`. -/
theorem c2_witness :
    ((":>=" : String) = ":>" ∨ (":>=" : String) = ":<" ∨
      (":>=" : String) = ":>=" ∨ (":>=" : String) = ":<=") ∧
    matchComparison "502" "500" ":>=" = specComparison "502" "500" ":>=" :=
  ⟨Or.inr (Or.inr (Or.inl rfl)),
    c2_amended "502" "500" ":>=" (Or.inr (Or.inr (Or.inl rfl)))⟩

/-- C7: when compilation of a query fails, `SetFilter` and
`SetAdvancedFilter` both return an error value and leave the installed
predicates untouched, so `Match` evaluates exactly as it did before the
failed call. -/
theorem c7_error_preserves_filter (f : FilterEngine) (options : FilterOptions)
    (now : Int) (qs : String) (e1 e2 : String) (f1 f2 : FilterEngine)
    (line : LogLine)
    (h1 : f.setFilter options = (f1, some e1))
    (h2 : f.setAdvancedFilter now qs = (f2, some e2)) :
    f1.compiledQuery = f.compiledQuery ∧
    f1.advancedExpression = f.advancedExpression ∧
    f1.feMatch line = f.feMatch line ∧
    f2 = f ∧
    f2.feMatch line = f.feMatch line := by
  rw [FilterEngine.setFilter] at h1
  rw [FilterEngine.setAdvancedFilter] at h2
  by_cases hq : qs = ""
  · rw [if_pos hq] at h2
    exact absurd (congrArg Prod.snd h2) (by simp)
  · rw [if_neg hq] at h2
    cases hp : parseAdvancedQuery now qs with
    | ok e =>
      rw [hp] at h2
      exact absurd (congrArg Prod.snd h2) (by simp)
    | error e =>
      rw [hp] at h2
      have hf2 : f2 = f := (congrArg Prod.fst h2).symm
      cases hc : compileQuery options with
      | ok q =>
        rw [hc] at h1
        exact absurd (congrArg Prod.snd h1) (by simp)
      | error e0 =>
        rw [hc] at h1
        have hf1 : f1 = { f with lastOptions := options } :=
          (congrArg Prod.fst h1).symm
        subst hf1
        subst hf2
        exact ⟨rfl, rfl, rfl, rfl, rfl⟩

def c7opts : FilterOptions := { query := "(", isRegex := true }

def c7badf1 : FilterEngine := (({} : FilterEngine).setFilter c7opts).1

def c7err1 : String := ((({} : FilterEngine).setFilter c7opts).2).getD ""

def c7badf2 : FilterEngine :=
  (({} : FilterEngine).setAdvancedFilter 0 "(level:ERROR").1

def c7err2 : String :=
  ((({} : FilterEngine).setAdvancedFilter 0 "(level:ERROR").2).getD ""

/-- C7 witness: two concrete failing compilations — the invalid regex `(`
on the simple path and the unclosed parenthesis `(level:ERROR` on the
advanced path — leave a fresh engine's match behaviour unchanged. -/
theorem c7_witness :
    ({} : FilterEngine).setFilter c7opts = (c7badf1, some c7err1) ∧
    ({} : FilterEngine).setAdvancedFilter 0 "(level:ERROR" = (c7badf2, some c7err2) ∧
    (c7badf1.compiledQuery = ({} : FilterEngine).compiledQuery ∧
     c7badf1.advancedExpression = ({} : FilterEngine).advancedExpression ∧
     c7badf1.feMatch { raw := "x" } = ({} : FilterEngine).feMatch { raw := "x" } ∧
     c7badf2 = {} ∧
     c7badf2.feMatch { raw := "x" } = ({} : FilterEngine).feMatch { raw := "x" }) :=
  ⟨rfl, rfl, c7_error_preserves_filter {} c7opts 0 "(level:ERROR" c7err1 c7err2
    c7badf1 c7badf2 { raw := "x" } rfl rfl⟩

/-- The raw-only decision kernel of `tryParseJSON`: its guard and the
unmarshal depend on the raw text alone. -/
def jsonStep (pm : ParserModel) (raw : String) : Option ParsedMap :=
  let trimmed := goTrim raw
  if strStartsWith trimmed "\x7b" && strEndsWith trimmed "\x7d" then
    pm.jsonU trimmed
  else none

/-- The raw-only decision kernel of `tryParseYAML`. -/
def yamlStep (pm : ParserModel) (raw : String) : Option ParsedMap :=
  let trimmed := goTrim raw
  if !goContains trimmed ":" then none
  else if looksTimestamped trimmed then none
  else
    match pm.yamlU trimmed with
    | some parsed => if parsed.length < 2 then none else some parsed
    | none => none

theorem tryParseJSON_as_step (pm : ParserModel) (line : LogLine) :
    tryParseJSON pm line =
      (jsonStep pm line.raw).map (fun parsed => applyParsedFields pm parsed line) := by
  rw [tryParseJSON, jsonStep]
  split
  · cases pm.jsonU (goTrim line.raw) <;> rfl
  · rfl

theorem tryParseYAML_as_step (pm : ParserModel) (line : LogLine) :
    tryParseYAML pm line =
      (yamlStep pm line.raw).map (fun parsed => applyParsedFields pm parsed line) := by
  rw [tryParseYAML, yamlStep]
  split
  · rfl
  · split
    · rfl
    · cases pm.yamlU (goTrim line.raw) with
      | none => rfl
      | some parsed =>
        dsimp only
        split <;> rfl

theorem applyParsedFields_raw (pm : ParserModel) (parsed : ParsedMap)
    (line : LogLine) :
    (applyParsedFields pm parsed line).raw = line.raw := by
  cases ht : extractTimestampFromParsed pm parsed <;>
    cases hl : extractLevelFromParsed parsed <;>
    simp only [applyParsedFields, ht, hl]

theorem applyParsedFields_idem (pm : ParserModel) (parsed : ParsedMap)
    (line : LogLine) :
    applyParsedFields pm parsed (applyParsedFields pm parsed line) =
      applyParsedFields pm parsed line := by
  cases ht : extractTimestampFromParsed pm parsed <;>
    cases hl : extractLevelFromParsed parsed <;>
    simp only [applyParsedFields, ht, hl]

/-- The timestamp half of `parseUnstructured`. -/
def tsStep (pm : ParserModel) (line : LogLine) : LogLine :=
  if line.timestamp.isNone then
    match pm.extractTsRaw line.raw with
    | some t => { line with timestamp := some t }
    | none => line
  else line

/-- The level half of `parseUnstructured`. -/
def lvlStep (pm : ParserModel) (line : LogLine) : LogLine :=
  if line.level = "" then
    let lvl := pm.extractLvlRaw line.raw
    if lvl ≠ "" then { line with level := lvl } else line
  else line

theorem parseUnstructured_eq (pm : ParserModel) (line : LogLine) :
    parseUnstructured pm line = lvlStep pm (tsStep pm line) := rfl

theorem tsStep_raw (pm : ParserModel) (line : LogLine) :
    (tsStep pm line).raw = line.raw := by
  rw [tsStep]
  split
  · cases pm.extractTsRaw line.raw <;> rfl
  · rfl

theorem lvlStep_raw (pm : ParserModel) (line : LogLine) :
    (lvlStep pm line).raw = line.raw := by
  rw [lvlStep]
  split
  · dsimp only
    split <;> rfl
  · rfl

theorem lvlStep_timestamp (pm : ParserModel) (line : LogLine) :
    (lvlStep pm line).timestamp = line.timestamp := by
  rw [lvlStep]
  split
  · dsimp only
    split <;> rfl
  · rfl

theorem tsStep_fix (pm : ParserModel) (x y : LogLine)
    (h : tsStep pm x = x) (hts : y.timestamp = x.timestamp)
    (hraw : y.raw = x.raw) : tsStep pm y = y := by
  rw [tsStep] at h ⊢
  rw [hts, hraw]
  cases hxts : x.timestamp with
  | some t => rfl
  | none =>
    rw [hxts] at h
    rw [if_pos (show (none : Option Int).isNone = true from rfl)] at h ⊢
    cases hex : pm.extractTsRaw x.raw with
    | none => rfl
    | some t =>
      rw [hex] at h
      have h2 := congrArg LogLine.timestamp h
      rw [hxts] at h2
      exact absurd h2 (by simp)

theorem tsStep_idem (pm : ParserModel) (line : LogLine) :
    tsStep pm (tsStep pm line) = tsStep pm line := by
  cases hts : line.timestamp with
  | some t =>
    have h1 : tsStep pm line = line := by rw [tsStep, hts]; rfl
    rw [h1, h1]
  | none =>
    cases hex : pm.extractTsRaw line.raw with
    | none =>
      have h1 : tsStep pm line = line := by
        rw [tsStep, hts]
        simp only [Option.isNone_none, if_true]
        rw [hex]
      rw [h1, h1]
    | some t =>
      have h1 : tsStep pm line = { line with timestamp := some t } := by
        rw [tsStep, hts]
        simp only [Option.isNone_none, if_true]
        rw [hex]
      rw [h1, tsStep]
      rfl

theorem lvlStep_idem (pm : ParserModel) (line : LogLine) :
    lvlStep pm (lvlStep pm line) = lvlStep pm line := by
  by_cases hl : line.level = ""
  · by_cases he : pm.extractLvlRaw line.raw = ""
    · have h1 : lvlStep pm line = line := by
        rw [lvlStep, if_pos hl]
        simp [he]
      rw [h1, h1]
    · have h1 : lvlStep pm line = { line with level := pm.extractLvlRaw line.raw } := by
        rw [lvlStep, if_pos hl]
        simp [he]
      rw [h1, lvlStep]
      simp [he]
  · have h1 : lvlStep pm line = line := by rw [lvlStep, if_neg hl]
    rw [h1, h1]

theorem parseUnstructured_raw (pm : ParserModel) (line : LogLine) :
    (parseUnstructured pm line).raw = line.raw := by
  rw [parseUnstructured_eq, lvlStep_raw, tsStep_raw]

theorem parseUnstructured_idem (pm : ParserModel) (line : LogLine) :
    parseUnstructured pm (parseUnstructured pm line) = parseUnstructured pm line := by
  rw [parseUnstructured_eq, parseUnstructured_eq]
  have hfix : tsStep pm (lvlStep pm (tsStep pm line)) = lvlStep pm (tsStep pm line) :=
    tsStep_fix pm (tsStep pm line) (lvlStep pm (tsStep pm line))
      (tsStep_idem pm line) (lvlStep_timestamp pm (tsStep pm line))
      (lvlStep_raw pm (tsStep pm line))
  rw [hfix, lvlStep_idem]

/-- C8: parsing a record twice leaves it exactly as parsing it once — for
every parser model and every record, `ParseLogLine` is idempotent on the
record's parsed mapping, timestamp and level (indeed on the whole
record). -/
theorem c8_parse_idempotent (pm : ParserModel) (line : LogLine) :
    parseLogLine pm (parseLogLine pm line) = parseLogLine pm line := by
  by_cases hraw : line.raw = ""
  · have h1 : parseLogLine pm line = line := by rw [parseLogLine, if_pos hraw]
    rw [h1, h1]
  · cases hj : jsonStep pm line.raw with
    | some parsed =>
      have h1 : parseLogLine pm line = applyParsedFields pm parsed line := by
        rw [parseLogLine, if_neg hraw, tryParseJSON_as_step, hj]
        rfl
      have hr1 : (applyParsedFields pm parsed line).raw = line.raw :=
        applyParsedFields_raw pm parsed line
      have h2 : parseLogLine pm (applyParsedFields pm parsed line) =
          applyParsedFields pm parsed (applyParsedFields pm parsed line) := by
        rw [parseLogLine, if_neg (by rw [hr1]; exact hraw),
          tryParseJSON_as_step, hr1, hj]
        rfl
      rw [h1, h2, applyParsedFields_idem]
    | none =>
      cases hy : yamlStep pm line.raw with
      | some parsed =>
        have h1 : parseLogLine pm line = applyParsedFields pm parsed line := by
          rw [parseLogLine, if_neg hraw, tryParseJSON_as_step, hj,
            tryParseYAML_as_step, hy]
          rfl
        have hr1 : (applyParsedFields pm parsed line).raw = line.raw :=
          applyParsedFields_raw pm parsed line
        have h2 : parseLogLine pm (applyParsedFields pm parsed line) =
            applyParsedFields pm parsed (applyParsedFields pm parsed line) := by
          rw [parseLogLine, if_neg (by rw [hr1]; exact hraw),
            tryParseJSON_as_step, hr1, hj, tryParseYAML_as_step, hr1, hy]
          rfl
        rw [h1, h2, applyParsedFields_idem]
      | none =>
        have h1 : parseLogLine pm line = parseUnstructured pm line := by
          rw [parseLogLine, if_neg hraw, tryParseJSON_as_step, hj,
            tryParseYAML_as_step, hy]
          rfl
        have hr1 : (parseUnstructured pm line).raw = line.raw :=
          parseUnstructured_raw pm line
        have h2 : parseLogLine pm (parseUnstructured pm line) =
            parseUnstructured pm (parseUnstructured pm line) := by
          rw [parseLogLine, if_neg (by rw [hr1]; exact hraw),
            tryParseJSON_as_step, hr1, hj, tryParseYAML_as_step, hr1, hy]
          rfl
        rw [h1, h2, parseUnstructured_idem]

def c9query : String := "boom AND level:ERROR"

def c9tree : QueryExpression :=
  .qand (.qtext "boom" false false none) (.qfield "level" ":" "ERROR" none)

def c9tree2 : QueryExpression :=
  .qand (.qtext "boom" true false none) (.qfield "level" ":" "ERROR" none)

def c9line : LogLine := { raw := "BOOM happened", level := "ERROR" }

/-- C9 counterexample: the query `boom AND level:ERROR` parses to a tree
whose text leaf is case-*insensitive*; its `String` form wraps the bare
word in quotes, and re-parsing the printed string yields a
case-*sensitive* text leaf.  The two trees disagree on the record with
raw text `BOOM happened`, so the round-tripped tree is not equivalent. -/
theorem c9_counterexample :
    parseAdvancedQuery 0 c9query = .ok c9tree ∧
    c9tree.render = "(\"boom\" AND level:ERROR)" ∧
    parseAdvancedQuery 0 c9tree.render = .ok c9tree2 ∧
    c9tree.evaluate c9line = true ∧
    c9tree2.evaluate c9line = false :=
  ⟨rfl, rfl, rfl, rfl, rfl⟩

/-! ### The plain `field:value` round-trip family (claim C9, amended)

The lemmas below push a symbolic `field:value` token through the
recursive-descent parser: for a nonempty alphanumeric field that does not
spell `NOT` case-insensitively and a value over letters, digits, `_` and
`.`, the token survives `skipWs`, fails every keyword and `time:[` test,
is split by `findOperator` exactly at its colon, and re-emerges as the
field expression it renders from. -/

/-- The value alphabet of the round-trip family: the source's
alphanumerics (which include `_`) and the dot. -/
def plainValueChar (c : Char) : Bool := goIsAlphaNumeric c || c = '.'

theorem charPred_ne (p : Char → Bool) (c d : Char) (h : p c = true)
    (hd : p d = false) : c ≠ d := by
  intro he
  rw [he, hd] at h
  exact absurd h (by simp)

theorem alnum_plainValue (c : Char) (h : goIsAlphaNumeric c = true) :
    plainValueChar c = true := by
  rw [plainValueChar, h]
  rfl

theorem plainValueChar_not_ws (c : Char) (h : plainValueChar c = true) :
    goIsWhitespace c = false := by
  cases hw : goIsWhitespace c with
  | false => rfl
  | true =>
    rw [goIsWhitespace] at hw
    simp only [Bool.or_eq_true, decide_eq_true_eq] at hw
    rcases hw with ((h1 | h1) | h1) | h1 <;> subst h1 <;> exact absurd h (by decide)

theorem skipWs_cons_id (c : Char) (rest : List Char)
    (h : goIsWhitespace c = false) : skipWs (c :: rest) = c :: rest := by
  rw [skipWs]
  rw [if_neg ?_]
  intro hx
  simp only [Bool.or_eq_true, decide_eq_true_eq] at hx
  rcases hx with h1 | h1 <;> subst h1 <;> exact absurd h (by decide)

theorem takeWhile_all {α} (p : α → Bool) (l : List α)
    (h : ∀ c ∈ l, p c = true) : l.takeWhile p = l := by
  induction l with
  | nil => rfl
  | cons a as ih =>
    rw [List.takeWhile_cons, h a (by simp), if_pos rfl]
    rw [ih (fun c hc => h c (by simp [hc]))]

theorem dropWhile_all {α} (p : α → Bool) (l : List α)
    (h : ∀ c ∈ l, p c = true) : l.dropWhile p = [] := by
  induction l with
  | nil => rfl
  | cons a as ih =>
    rw [List.dropWhile_cons, h a (by simp), if_pos rfl]
    exact ih (fun c hc => h c (by simp [hc]))

theorem dropWhile_none {α} (p : α → Bool) (l : List α)
    (h : ∀ c ∈ l, p c = false) : l.dropWhile p = l := by
  cases l with
  | nil => rfl
  | cons a as =>
    rw [List.dropWhile_cons, h a (by simp), if_neg (by simp)]

theorem trimChars_id (l : List Char)
    (h : ∀ c ∈ l, goIsWhitespace c = false) : trimChars l = l := by
  rw [trimChars]
  rw [dropWhile_none _ _ h]
  rw [dropWhile_none _ _ (fun c hc => h c (List.mem_reverse.mp hc))]
  exact List.reverse_reverse l

theorem goTrim_id (s : String) (h : ∀ c ∈ s.data, goIsWhitespace c = false) :
    goTrim s = s := by
  rw [goTrim, trimChars_id _ h]

theorem listStartsWith_subset (p l : List Char)
    (h : listStartsWith p l = true) : ∀ c ∈ p, c ∈ l := by
  induction p generalizing l with
  | nil => intro c hc; simp at hc
  | cons a as ih =>
    intro c hc
    cases l with
    | nil => rw [listStartsWith] at h; exact absurd h (by simp)
    | cons d ds =>
      rw [listStartsWith] at h
      simp only [Bool.and_eq_true, decide_eq_true_eq] at h
      rcases List.mem_cons.mp hc with hc | hc
      · subst hc; rw [h.1]; exact List.mem_cons_self d ds
      · exact List.mem_cons_of_mem d (ih ds h.2 c hc)

theorem listIndexOf_subset (l sub : List Char) (i : Nat)
    (h : listIndexOf l sub = some i) : ∀ c ∈ sub, c ∈ l := by
  induction l generalizing i with
  | nil =>
    rw [listIndexOf] at h
    split at h
    · intro c hc
      rename_i hempty
      rw [List.isEmpty_iff] at hempty
      subst hempty
      simp at hc
    · exact absurd h (by simp)
  | cons d ds ih =>
    rw [listIndexOf] at h
    by_cases hs : listStartsWith sub (d :: ds) = true
    · exact listStartsWith_subset _ _ hs
    · rw [if_neg hs] at h
      intro c hc
      cases hio : listIndexOf ds sub with
      | none => rw [hio] at h; exact absurd h (by simp)
      | some j => exact List.mem_cons_of_mem d (ih j hio c hc)

theorem goIndex_none_of_not_mem (s sub : String) (c : Char)
    (hc : c ∈ sub.data) (hnc : c ∉ s.data) : goIndex s sub = none := by
  cases h : listIndexOf s.data sub.data with
  | none => rw [goIndex]; exact h
  | some i => exact absurd (listIndexOf_subset _ _ i h c hc) hnc

theorem listIndexOf_colon (f v : List Char) (hf : ':' ∉ f) :
    listIndexOf (f ++ ':' :: v) [':'] = some f.length := by
  induction f with
  | nil =>
    rw [List.nil_append, listIndexOf]
    rw [if_pos (by rw [listStartsWith]; simp [listStartsWith])]
    rfl
  | cons a as ih =>
    rw [List.cons_append, listIndexOf]
    rw [if_neg ?_]
    · rw [ih (fun h => hf (List.mem_cons_of_mem a h))]
      rfl
    · rw [listStartsWith]
      simp only [Bool.and_eq_true, decide_eq_true_eq, not_and]
      intro hcol
      exact absurd hcol.symm (fun h => hf (h ▸ List.mem_cons_self a as))

theorem listTakeAppend {α} (a b : List α) : (a ++ b).take a.length = a := by
  induction a with
  | nil => rfl
  | cons x xs ih => simp [ih]

theorem listDropAppendCons {α} (a : List α) (c : α) (b : List α) :
    (a ++ c :: b).drop (a.length + 1) = b := by
  induction a with
  | nil => rfl
  | cons x xs ih => simpa using ih

theorem plain_not_mem (a : Char) (as v : List Char)
    (hf : ∀ c ∈ a :: as, goIsAlphaNumeric c = true)
    (hv : ∀ c ∈ v, plainValueChar c = true)
    (d : Char) (hd1 : goIsAlphaNumeric d = false)
    (hd2 : plainValueChar d = false) (hd3 : d ≠ ':') :
    d ∉ (a :: as) ++ ':' :: v := by
  intro hm
  rcases List.mem_append.mp hm with h | h
  · exact absurd (hf d h) (by simp [hd1])
  · rcases List.mem_cons.mp h with h | h
    · exact hd3 h
    · exact absurd (hv d h) (by simp [hd2])

theorem plain_not_ws (a : Char) (as v : List Char)
    (hf : ∀ c ∈ a :: as, goIsAlphaNumeric c = true)
    (hv : ∀ c ∈ v, plainValueChar c = true) :
    ∀ c ∈ (a :: as) ++ ':' :: v, goIsWhitespace c = false := by
  intro c hm
  rcases List.mem_append.mp hm with h | h
  · exact plainValueChar_not_ws c (alnum_plainValue c (hf c h))
  · rcases List.mem_cons.mp h with h | h
    · subst h; rfl
    · exact plainValueChar_not_ws c (hv c h)

theorem tokPred_of (c : Char) (h : plainValueChar c = true ∨ c = ':') :
    (!goIsWhitespace c && decide (c ≠ '(') && decide (c ≠ ')')) = true := by
  rcases h with h | h
  · rw [plainValueChar_not_ws c h]
    rw [decide_eq_true (charPred_ne plainValueChar c '(' h (by decide))]
    rw [decide_eq_true (charPred_ne plainValueChar c ')' h (by decide))]
    rfl
  · subst h; rfl

theorem plain_tokPred (a : Char) (as v : List Char)
    (hf : ∀ c ∈ a :: as, goIsAlphaNumeric c = true)
    (hv : ∀ c ∈ v, plainValueChar c = true) :
    ∀ c ∈ (a :: as) ++ ':' :: v,
      (!goIsWhitespace c && decide (c ≠ '(') && decide (c ≠ ')')) = true := by
  intro c hm
  rcases List.mem_append.mp hm with h | h
  · exact tokPred_of c (Or.inl (alnum_plainValue c (hf c h)))
  · rcases List.mem_cons.mp h with h | h
    · exact tokPred_of c (Or.inr h)
    · exact tokPred_of c (Or.inl (hv c h))

theorem matchKeyword_plain_not (a : Char) (as v : List Char)
    (hf : ∀ c ∈ a :: as, goIsAlphaNumeric c = true)
    (hnot : String.mk ((a :: as).map asciiUpperChar) ≠ "NOT") :
    matchKeyword ((a :: as) ++ ':' :: v) "NOT"
      = (false, (a :: as) ++ ':' :: v) := by
  have hskip : skipWs ((a :: as) ++ ':' :: v) = (a :: as) ++ ':' :: v := by
    rw [List.cons_append]
    exact skipWs_cons_id a _
      (plainValueChar_not_ws a (alnum_plainValue a (hf a (by simp))))
  simp only [matchKeyword, hskip]
  by_cases hlen : ((a :: as) ++ ':' :: v).length < ("NOT" : String).length
  · rw [if_pos hlen]
  · rw [if_neg hlen]
    by_cases hup : String.mk ((((a :: as) ++ ':' :: v).take
        ("NOT" : String).length).map asciiUpperChar) = "NOT"
    · rw [if_pos hup]
      rcases as with _ | ⟨b, bs⟩
      · rcases v with _ | ⟨v0, vs⟩
        · exact absurd (by norm_num [show ("NOT" : String).length = 3 from rfl]) hlen
        · exfalso
          have hd := congrArg String.data hup
          rw [show ((([a] : List Char) ++ ':' :: v0 :: vs).take
              ("NOT" : String).length).map asciiUpperChar
            = [asciiUpperChar a, ':', asciiUpperChar v0] from rfl] at hd
          rw [show ("NOT" : String).data = ['N', 'O', 'T'] from rfl] at hd
          injection hd with h1 hrest
          injection hrest with h2 hrest2
          exact absurd h2 (by decide)
      · rcases bs with _ | ⟨c, cs⟩
        · exfalso
          have hd := congrArg String.data hup
          rw [show ((([a, b] : List Char) ++ ':' :: v).take
              ("NOT" : String).length).map asciiUpperChar
            = [asciiUpperChar a, asciiUpperChar b, ':'] from rfl] at hd
          rw [show ("NOT" : String).data = ['N', 'O', 'T'] from rfl] at hd
          injection hd with h1 hrest
          injection hrest with h2 hrest2
          injection hrest2 with h3 hrest3
          exact absurd h3 (by decide)
        · rcases cs with _ | ⟨d, ds⟩
          · exfalso
            apply hnot
            rw [show (([a, b, c] : List Char) ++ ':' :: v).take
                ("NOT" : String).length = [a, b, c] from rfl] at hup
            exact hup
          · rw [show ((a :: b :: c :: d :: ds) ++ ':' :: v).drop
                ("NOT" : String).length = d :: (ds ++ ':' :: v) from rfl]
            dsimp only
            rw [if_pos (hf d (by simp))]
    · rw [if_neg hup]

theorem parseToken_plain (a : Char) (as v : List Char)
    (hf : ∀ c ∈ a :: as, goIsAlphaNumeric c = true)
    (hv : ∀ c ∈ v, plainValueChar c = true) :
    parseToken ((a :: as) ++ ':' :: v)
      = (String.mk ((a :: as) ++ ':' :: v), []) := by
  have ha : goIsAlphaNumeric a = true := hf a (by simp)
  have hskip : skipWs ((a :: as) ++ ':' :: v) = (a :: as) ++ ':' :: v := by
    rw [List.cons_append]
    exact skipWs_cons_id a _ (plainValueChar_not_ws a (alnum_plainValue a ha))
  have htime : listStartsWith ("time:[".data) ((a :: as) ++ ':' :: v) = false := by
    cases hx : listStartsWith ("time:[".data) ((a :: as) ++ ':' :: v) with
    | false => rfl
    | true =>
      exact absurd (listStartsWith_subset _ _ hx '[' (by decide))
        (plain_not_mem a as v hf hv '[' (by decide) (by decide) (by decide))
  rw [parseToken]
  rw [hskip, List.cons_append]
  split
  · rename_i heq
    exact absurd heq (by simp)
  · rename_i heq
    rw [List.cons_eq_cons] at heq
    exact absurd heq.1
      (charPred_ne goIsAlphaNumeric a '"' ha (by decide))
  · rw [← List.cons_append, htime]
    simp only [Bool.false_eq_true, if_false]
    rw [takeWhile_all _ _ (plain_tokPred a as v hf hv)]
    rw [dropWhile_all _ _ (plain_tokPred a as v hf hv)]

theorem findOperator_plain (a : Char) (as v : List Char)
    (hf : ∀ c ∈ a :: as, goIsAlphaNumeric c = true)
    (hv : ∀ c ∈ v, plainValueChar c = true) :
    findOperator (String.mk ((a :: as) ++ ':' :: v))
      = some (String.mk (a :: as), ":", String.mk v) := by
  have hdata : (String.mk ((a :: as) ++ ':' :: v)).data = (a :: as) ++ ':' :: v := rfl
  have hbang : goIndex (String.mk ((a :: as) ++ ':' :: v)) ":!=" = none :=
    goIndex_none_of_not_mem _ _ '!' (by decide)
      (plain_not_mem a as v hf hv '!' (by decide) (by decide) (by decide))
  have htilde : goIndex (String.mk ((a :: as) ++ ':' :: v)) ":~" = none :=
    goIndex_none_of_not_mem _ _ '~' (by decide)
      (plain_not_mem a as v hf hv '~' (by decide) (by decide) (by decide))
  have hgt : goIndex (String.mk ((a :: as) ++ ':' :: v)) ":>" = none :=
    goIndex_none_of_not_mem _ _ '>' (by decide)
      (plain_not_mem a as v hf hv '>' (by decide) (by decide) (by decide))
  have hlt : goIndex (String.mk ((a :: as) ++ ':' :: v)) ":<" = none :=
    goIndex_none_of_not_mem _ _ '<' (by decide)
      (plain_not_mem a as v hf hv '<' (by decide) (by decide) (by decide))
  have hge : goIndex (String.mk ((a :: as) ++ ':' :: v)) ":>=" = none :=
    goIndex_none_of_not_mem _ _ '>' (by decide)
      (plain_not_mem a as v hf hv '>' (by decide) (by decide) (by decide))
  have hle : goIndex (String.mk ((a :: as) ++ ':' :: v)) ":<=" = none :=
    goIndex_none_of_not_mem _ _ '<' (by decide)
      (plain_not_mem a as v hf hv '<' (by decide) (by decide) (by decide))
  have hcolon : goIndex (String.mk ((a :: as) ++ ':' :: v)) ":" = some (a :: as).length := by
    rw [goIndex]
    exact listIndexOf_colon (a :: as) v
      (fun hm => absurd (hf ':' hm) (by decide))
  rw [findOperator]
  rw [show fieldOperators = [":!=", ":~", ":>", ":<", ":>=", ":<=", ":"] from rfl]
  simp only [findOperator.go, hbang, htilde, hgt, hlt, hge, hle, hcolon]
  rw [listTakeAppend (a :: as) (':' :: v)]
  rw [show (a :: as).length + (":" : String).length = (a :: as).length + 1 from rfl]
  rw [listDropAppendCons (a :: as) ':' v]

theorem parseFieldExpression_plain (a : Char) (as v : List Char)
    (hf : ∀ c ∈ a :: as, goIsAlphaNumeric c = true)
    (hv : ∀ c ∈ v, plainValueChar c = true) :
    parseFieldExpression (String.mk ((a :: as) ++ ':' :: v))
      = .ok (.qfield (String.mk (a :: as)) ":" (String.mk v) none) := by
  have hpipe : goContains (String.mk v) "|" = false := by
    rw [goContains, goIndex_none_of_not_mem _ _ '|' (by decide)
      (fun hm => absurd (hv '|' hm) (by decide))]
    rfl
  rw [parseFieldExpression, findOperator_plain a as v hf hv]
  dsimp only
  rw [if_neg (fun h => by
    have := congrArg String.data h
    simp at this)]
  rw [if_neg ?_]
  intro hx
  rw [show ((":" : String) = ":~" : Bool) = false from by decide, hpipe] at hx
  simp at hx

theorem parsePrimary_plain (now : Int) (k : Nat) (a : Char) (as v : List Char)
    (hf : ∀ c ∈ a :: as, goIsAlphaNumeric c = true)
    (hv : ∀ c ∈ v, plainValueChar c = true) :
    parsePrimaryExpression now (k + 1) ((a :: as) ++ ':' :: v)
      = .ok (.qfield (String.mk (a :: as)) ":" (String.mk v) none, []) := by
  have ha : goIsAlphaNumeric a = true := hf a (by simp)
  have hskip : skipWs ((a :: as) ++ ':' :: v) = (a :: as) ++ ':' :: v := by
    rw [List.cons_append]
    exact skipWs_cons_id a _ (plainValueChar_not_ws a (alnum_plainValue a ha))
  have hmem : goContains (String.mk ((a :: as) ++ ':' :: v)) ":" = true :=
    (goContains_colon_iff _).mpr (by simp)
  simp only [parsePrimaryExpression]
  rw [hskip, List.cons_append]
  split
  · rename_i heq
    exact absurd heq (by simp)
  · rename_i heq
    rw [List.cons_eq_cons] at heq
    exact absurd heq.1
      (charPred_ne goIsAlphaNumeric a '(' ha (by decide))
  · rw [← List.cons_append, parseToken_plain a as v hf hv]
    dsimp only
    rw [if_neg (fun h => by
      have := congrArg String.data h
      simp at this)]
    rw [if_pos hmem]
    rw [parseFieldExpression_plain a as v hf hv]

theorem parseUnary_plain (now : Int) (k : Nat) (a : Char) (as v : List Char)
    (hf : ∀ c ∈ a :: as, goIsAlphaNumeric c = true)
    (hv : ∀ c ∈ v, plainValueChar c = true)
    (hnot : String.mk ((a :: as).map asciiUpperChar) ≠ "NOT") :
    parseUnaryExpression now (k + 2) ((a :: as) ++ ':' :: v)
      = .ok (.qfield (String.mk (a :: as)) ":" (String.mk v) none, []) := by
  have ha : goIsAlphaNumeric a = true := hf a (by simp)
  have hskip : skipWs ((a :: as) ++ ':' :: v) = (a :: as) ++ ':' :: v := by
    rw [List.cons_append]
    exact skipWs_cons_id a _ (plainValueChar_not_ws a (alnum_plainValue a ha))
  rw [show k + 2 = (k + 1) + 1 from rfl]
  simp only [parseUnaryExpression]
  rw [hskip, matchKeyword_plain_not a as v hf hnot]
  exact parsePrimary_plain now k a as v hf hv

theorem parseAnd_plain (now : Int) (k : Nat) (a : Char) (as v : List Char)
    (hf : ∀ c ∈ a :: as, goIsAlphaNumeric c = true)
    (hv : ∀ c ∈ v, plainValueChar c = true)
    (hnot : String.mk ((a :: as).map asciiUpperChar) ≠ "NOT") :
    parseAndExpression now (k + 3) ((a :: as) ++ ':' :: v)
      = .ok (.qfield (String.mk (a :: as)) ":" (String.mk v) none, []) := by
  rw [show k + 3 = (k + 2) + 1 from rfl]
  simp only [parseAndExpression]
  rw [parseUnary_plain now k a as v hf hv hnot]
  simp only [andLoop]

theorem parseExpression_plain (now : Int) (k : Nat) (a : Char) (as v : List Char)
    (hf : ∀ c ∈ a :: as, goIsAlphaNumeric c = true)
    (hv : ∀ c ∈ v, plainValueChar c = true)
    (hnot : String.mk ((a :: as).map asciiUpperChar) ≠ "NOT") :
    parseExpression now (k + 4) ((a :: as) ++ ':' :: v)
      = .ok (.qfield (String.mk (a :: as)) ":" (String.mk v) none, []) := by
  rw [show k + 4 = (k + 3) + 1 from rfl]
  simp only [parseExpression]
  rw [parseAnd_plain now k a as v hf hv hnot]
  simp only [orLoop]

/-- C9 (amended): for EVERY plain `field:value` advanced query — a
nonempty field over the source's alphanumerics (letters, digits, `_`)
that does not spell `NOT` case-insensitively, and a value over letters,
digits, `_` and `.` — the query parses to the field-expression tree,
that tree prints back to the very same string, and re-parsing the
printed string reproduces the identical tree (hence an equivalent one).
Bare unquoted text terms, by contrast, do not round-trip (see the
counterexample). -/
theorem c9_amended (field value : String)
    (hne : field.data ≠ [])
    (hf : ∀ c ∈ field.data, goIsAlphaNumeric c = true)
    (hv : ∀ c ∈ value.data, plainValueChar c = true)
    (hnot : asciiUpper field ≠ "NOT") :
    ∃ t, parseAdvancedQuery 0 (field ++ ":" ++ value) = .ok t ∧
      t = .qfield field ":" value none ∧
      t.render = field ++ ":" ++ value ∧
      parseAdvancedQuery 0 t.render = .ok t := by
  obtain ⟨a, as, hfd⟩ : ∃ a as, field.data = a :: as := by
    rcases h : field.data with _ | ⟨a, as⟩
    · exact absurd h hne
    · exact ⟨a, as, rfl⟩
  have hmkf : String.mk (a :: as) = field := by rw [← hfd]
  have hmkv : String.mk value.data = value := rfl
  have hf2 : ∀ c ∈ a :: as, goIsAlphaNumeric c = true := by
    rw [← hfd]; exact hf
  have hnot2 : String.mk ((a :: as).map asciiUpperChar) ≠ "NOT" := by
    rw [← hfd]
    intro h
    exact hnot (by rw [asciiUpper]; exact h)
  have hdata : (field ++ ":" ++ value).data = (a :: as) ++ ':' :: value.data := by
    rw [String.data_append, String.data_append, hfd, List.append_assoc]
    rfl
  have htrim : goTrim (field ++ ":" ++ value) = field ++ ":" ++ value := by
    apply goTrim_id
    rw [hdata]
    exact plain_not_ws a as value.data hf2 hv
  have hparse : parseAdvancedQuery 0 (field ++ ":" ++ value)
      = .ok (.qfield field ":" value none) := by
    rw [parseAdvancedQuery]
    rw [htrim, hdata]
    rw [show 8 * ((a :: as) ++ ':' :: value.data).length + 16
      = (8 * ((a :: as) ++ ':' :: value.data).length + 12) + 4 from by omega]
    rw [parseExpression_plain 0 _ a as value.data hf2 hv hnot2]
    rw [hmkf, hmkv]
    rfl
  have hrender : (QueryExpression.qfield field ":" value none).render
      = field ++ ":" ++ value := rfl
  exact ⟨.qfield field ":" value none, hparse, rfl, hrender,
    by rw [hrender]; exact hparse⟩

/-- C9 witness: the amended round trip at the concrete query
`level:ERROR`. -/
theorem c9_witness :
    ((("level" : String).data ≠ []) ∧
     (∀ c ∈ ("level" : String).data, goIsAlphaNumeric c = true) ∧
     (∀ c ∈ ("ERROR" : String).data, plainValueChar c = true) ∧
     asciiUpper "level" ≠ "NOT") ∧
    (∃ t, parseAdvancedQuery 0 ("level" ++ ":" ++ "ERROR") = .ok t ∧
      t = .qfield "level" ":" "ERROR" none ∧
      t.render = "level" ++ ":" ++ "ERROR" ∧
      parseAdvancedQuery 0 t.render = .ok t) :=
  ⟨⟨by decide, by decide, by decide, by decide⟩,
    c9_amended "level" "ERROR" (by decide) (by decide) (by decide) (by decide)⟩

/-- C10: once `SetAdvancedFilter` has installed an expression, `Match`
evaluates that stored expression; a later successful `SetFilter` call
does not remove it (`Match` still evaluates the advanced tree, not the
newly compiled flat query); `Clear` removes it and restores the
nothing-matches state. -/
theorem c10_advanced_precedence (f f1 f2 : FilterEngine) (now : Int)
    (q : String) (options : FilterOptions) (line : LogLine)
    (e : QueryExpression) (hq : q ≠ "")
    (h1 : f.setAdvancedFilter now q = (f1, none))
    (hparse : parseAdvancedQuery now q = .ok e)
    (h2 : f1.setFilter options = (f2, none)) :
    f1.advancedExpression = some e ∧
    f1.feMatch line = e.evaluate line ∧
    f2.advancedExpression = some e ∧
    f2.feMatch line = e.evaluate line ∧
    f2.clear.advancedExpression = none ∧
    f2.clear.feMatch line = false := by
  obtain ⟨e2, hp2, hf1⟩ := setAdvancedFilter_ok f now q f1 hq h1
  rw [hparse] at hp2
  cases hp2
  obtain ⟨cq, hcq, hf2⟩ := setFilter_ok_compiled f1 options f2 h2
  have ha1 : f1.advancedExpression = some e := by rw [hf1]
  have ha2 : f2.advancedExpression = some e := by rw [hf2]; exact ha1
  refine ⟨ha1, ?_, ha2, ?_, rfl, rfl⟩
  · rw [FilterEngine.feMatch, ha1]
  · rw [FilterEngine.feMatch, ha2]

def c10e : QueryExpression := .qfield "level" ":" "ERROR" none

def c10f1 : FilterEngine := (({} : FilterEngine).setAdvancedFilter 0 "level:ERROR").1

def c10f2 : FilterEngine := (c10f1.setFilter { query := "boom" }).1

def c10line : LogLine := { raw := "all quiet", level := "ERROR" }

/-- C10 witness: a concrete advanced filter `level:ERROR` followed by a
successful simple `SetFilter("boom")` — `Match` still evaluates the
advanced tree (accepting a record that the flat query would reject), and
`Clear` removes it. -/
theorem c10_witness :
    (("level:ERROR" : String) ≠ "") ∧
    (c10f1.advancedExpression = some c10e ∧
     c10f1.feMatch c10line = c10e.evaluate c10line ∧
     c10f2.advancedExpression = some c10e ∧
     c10f2.feMatch c10line = c10e.evaluate c10line ∧
     c10f2.clear.advancedExpression = none ∧
     c10f2.clear.feMatch c10line = false) :=
  ⟨by decide, c10_advanced_precedence {} c10f1 c10f2 0 "level:ERROR"
    { query := "boom" } c10line c10e (by decide) rfl rfl rfl⟩
